import Mathlib

/-!
Verification development for `src/utils/rateLimiting.ts`: a sliding-window +
token-bucket rate limiter with abuse heuristics, a composite-key builder and a
bounded in-memory state store.

The embedding below translates the TypeScript source shallowly:
* JavaScript numbers are modelled by `ℚ` (the code only performs `+ - * /`,
  `min`/`max`, `Math.ceil`/`Math.floor` on finite values); the one place where
  non-finite values matter (`mergeRouteConfig`, whose clamping is claimed to
  normalise non-finite inputs) gets a dedicated `JsNum` model capturing
  `NaN`/`Infinity` propagation through `Math.max`.
* JavaScript truthiness checks on numbers (`if (x)` with `x : number`) are
  modelled explicitly: `0` is falsy, every other rational is truthy; on
  optional strings the empty string is falsy.
* The SHA-256 based `shortHash` is abstracted as an explicit function
  parameter `hashFn : String → String`; no claim depends on the distribution
  of the hash, only on its determinism.
* The `Map<string, State>` is an insertion-ordered association list;
  `Map.set` on a present key updates in place, on a fresh key appends;
  `Map.delete` removes the (unique) binding.
* Both public methods mutate the store; they are modelled as functions
  returning the result together with the updated store.
-/

namespace RateLimiting

set_option maxRecDepth 100000

/-- The `AbuseReason` union type of the source. -/
inductive AbuseReason
  | ok
  | rate_limited
  | duplicate_burst
  | rapid_retries
  | multi_tab_spike
deriving DecidableEq, Repr

/-- `RouteRateConfig.sliding`. -/
structure SlidingConfig where
  windowMs : ℚ
  max : ℚ
deriving DecidableEq, Repr

/-- `RouteRateConfig.bucket`. -/
structure BucketConfig where
  capacity : ℚ
  refillPerSecond : ℚ
deriving DecidableEq, Repr

/-- `RouteRateConfig.heuristics`. -/
structure HeuristicsConfig where
  duplicateWindowMs : ℚ
  duplicateThreshold : ℚ
  rapidRetryMs : ℚ
  spikeWindowMs : ℚ
  spikeThreshold : ℚ
deriving DecidableEq, Repr

/-- `RouteRateConfig`. -/
structure RouteRateConfig where
  sliding : SlidingConfig
  bucket : BucketConfig
  heuristics : HeuristicsConfig
deriving DecidableEq, Repr

/-- `RateLimiterConfig.store`. -/
structure StoreConfig where
  maxEntries : ℚ
  idleTtlMs : ℚ
  minSweepIntervalMs : ℚ
deriving DecidableEq, Repr

/-- `Attempt`: a timestamp with an optional short content hash. -/
structure Attempt where
  t : ℚ
  h : Option String
deriving DecidableEq, Repr

/-- `State`: the per-composite-key entry of the store. -/
structure State where
  key : String
  route : String
  tokens : ℚ
  lastRefill : ℚ
  attempts : List Attempt
  contentHistory : List Attempt
  lastSeen : ℚ
  expiresAt : ℚ
  lastDeniedAt : Option ℚ
deriving DecidableEq, Repr

/-- `RateLimitDecision`. `remaining` and `limit` are optional in the
TypeScript interface but are always populated by `isAllowed`. -/
structure RateLimitDecision where
  allowed : Bool
  reason : AbuseReason
  retryAfter : ℤ
  key : String
  remaining : ℚ
  limit : ℚ
deriving DecidableEq, Repr

/-- `RateLimitContext`. -/
structure RateLimitContext where
  route : String
  ip : Option String := none
  sessionId : Option String := none
  content : Option String := none
  contentFingerprint : Option String := none
  nowMs : Option ℚ := none
deriving DecidableEq, Repr

/-- The record returned by `RateLimiter.record`. -/
structure RecordResult where
  key : String
  route : String
  tokens : ℤ
  windowCount : ℕ
  expiresAt : ℚ
deriving DecidableEq, Repr

/-- The in-memory store: insertion-ordered entries plus the sweep clock. -/
structure Store where
  entries : List (String × State)
  lastSweep : ℚ
deriving DecidableEq, Repr

/-- The empty store a fresh `RateLimiter` starts from. -/
def emptyStore : Store := { entries := [], lastSweep := 0 }

/-- JavaScript truthiness of an optional string (`undefined` and `""` falsy). -/
def truthyStr : Option String → Bool
  | some s => s ≠ ""
  | none => false

/-- `clamp(n, min, max) = Math.max(min, Math.min(max, n))`. -/
def clamp (n lo hi : ℚ) : ℚ := Max.max lo (Min.min hi n)

/-- `secs(ms) = Math.ceil(ms / 1000)`. -/
def secs (ms : ℚ) : ℤ := ⌈ms / 1000⌉

/-- `nowMsOverride`: a finite caller-supplied timestamp wins over the
ambient clock (`Date.now()`, passed in as `dateNow`). -/
def nowMsOverride (dateNow : ℚ) : Option ℚ → ℚ
  | some n => n
  | none => dateNow

/-- `compositeKey`: join ip, session and route with `|` and hash. The
cryptographic `shortHash` is abstracted by `hashFn`. -/
def compositeKey (hashFn : String → String)
    (ip sessionId : Option String) (route : String) : String :=
  hashFn ((ip.getD "") ++ "|" ++ (sessionId.getD "") ++ "|" ++ route)

/-- `RateLimiter.contentSig`: a truthy explicit fingerprint wins; otherwise
nonempty content is truncated to 10000 characters and hashed. -/
def contentSig (hashFn : String → String) (ctx : RateLimitContext) :
    Option String :=
  if truthyStr ctx.contentFingerprint then ctx.contentFingerprint
  else
    match ctx.content with
    | some c =>
        if c.length > 0 then
          some (hashFn (if c.length > 10000 then c.take 10000 else c))
        else none
    | none => none

/-- Association-list lookup, mirroring `Map.get`. -/
def lookupEntry (entries : List (String × State)) (k : String) :
    Option State :=
  (entries.find? (fun e => e.1 == k)).map Prod.snd

/-- `Map.set` on a key already present: replace in place. -/
def setEntry (entries : List (String × State)) (k : String) (s : State) :
    List (String × State) :=
  entries.map (fun e => if e.1 == k then (k, s) else e)

/-- One step of `evictOldest`'s scan: keep the entry whose `lastSeen` is
strictly smallest so far (`oldestSeen` starts at `Infinity`, so the first
entry always replaces the empty accumulator). -/
def oldestStep (acc : Option (String × ℚ)) (e : String × State) :
    Option (String × ℚ) :=
  match acc with
  | none => some (e.1, e.2.lastSeen)
  | some p => if e.2.lastSeen < p.2 then some (e.1, e.2.lastSeen) else some p

/-- `InMemoryStore.evictOldest`'s scan: the first entry whose `lastSeen` is
strictly smallest. -/
def findOldest (entries : List (String × State)) : Option (String × ℚ) :=
  entries.foldl oldestStep none

/-- `InMemoryStore.evictOldest`. The guard `if (oldestKey)` is a JavaScript
truthiness test, so an empty-string key is never deleted. -/
def evictOldest (entries : List (String × State)) : List (String × State) :=
  match findOldest entries with
  | none => entries
  | some p =>
      if p.1 = "" then entries else entries.eraseP (fun e => e.1 == p.1)

/-- `InMemoryStore.sweepIfNeeded`: rate-limited removal of expired entries. -/
def sweepIfNeeded (opts : StoreConfig) (now : ℚ) (st : Store) : Store :=
  if now - st.lastSweep < opts.minSweepIntervalMs then st
  else
    { entries := st.entries.filter (fun e => !(decide (e.2.expiresAt ≤ now))),
      lastSweep := now }

/-- `InMemoryStore.getOrCreate`: refresh `lastSeen`/`expiresAt` of an
existing entry, or evict-then-insert a fresh one; then sweep. Returns the
(refreshed or fresh) state together with the updated store; the caller keeps
mutating that state object, so later writes only land in the map if the key
survived the sweep (`setEntry` is a no-op on an absent key). -/
def getOrCreate (opts : StoreConfig) (cfg : RouteRateConfig)
    (key route : String) (now : ℚ) (st : Store) : State × Store :=
  match lookupEntry st.entries key with
  | some s0 =>
      let s := { s0 with lastSeen := now, expiresAt := now + opts.idleTtlMs }
      (s, sweepIfNeeded opts now { st with entries := setEntry st.entries key s })
  | none =>
      let entries1 :=
        if opts.maxEntries ≤ (st.entries.length : ℚ) then evictOldest st.entries
        else st.entries
      let s : State :=
        { key := key, route := route, tokens := cfg.bucket.capacity,
          lastRefill := now, attempts := [], contentHistory := [],
          lastSeen := now, expiresAt := now + opts.idleTtlMs,
          lastDeniedAt := none }
      (s, sweepIfNeeded opts now
            { entries := entries1 ++ [(key, s)], lastSweep := st.lastSweep })

/-- `RateLimiter.refillTokens`: no-op unless time advanced; otherwise add
`elapsedSeconds * refillPerSecond` tokens capped at capacity. -/
def refillTokens (cfg : RouteRateConfig) (s : State) (now : ℚ) : State :=
  if now ≤ s.lastRefill then s
  else
    { s with
        tokens := Min.min cfg.bucket.capacity
          (s.tokens + (now - s.lastRefill) / 1000 * cfg.bucket.refillPerSecond),
        lastRefill := now }

/-- `RateLimiter.pruneWindow`: trim the prefix of attempts at or before
`now - windowMs`. -/
def pruneWindow (cfg : RouteRateConfig) (s : State) (now : ℚ) : State :=
  { s with
      attempts :=
        s.attempts.dropWhile (fun a => decide (a.t ≤ now - cfg.sliding.windowMs)) }

/-- `RateLimiter.pruneContentHistory`: trim expired fingerprints, then bound
the list to its last 1000 entries. -/
def pruneContentHistory (cfg : RouteRateConfig) (s : State) (now : ℚ) : State :=
  let l := s.contentHistory.dropWhile
    (fun a => decide (a.t ≤ now - cfg.heuristics.duplicateWindowMs))
  { s with contentHistory := if l.length > 1000 then l.drop (l.length - 1000) else l }

/-- `RateLimiter.countRecentAttempts`: length of the maximal suffix of
attempts with `t ≥ now - windowMs` (the backwards scan stops at the first
older attempt). -/
def countRecentAttempts (s : State) (windowMs now : ℚ) : ℕ :=
  (s.attempts.reverse.takeWhile (fun a => decide (now - windowMs ≤ a.t))).length

/-- `RateLimiter.countDuplicate`: scan the content history backwards while
`t ≥ now - windowMs`, counting entries whose hash equals the given one; the
last match seen (the earliest in time) supplies `earliestTs`. The guard
`if (!hash)` is a truthiness test, so the empty string means no hash. -/
def countDuplicate (s : State) (hash : Option String) (now windowMs : ℚ) :
    ℕ × Option ℚ :=
  if truthyStr hash then
    let recent := s.contentHistory.reverse.takeWhile
      (fun e => !(decide (e.t < now - windowMs)))
    let hits := recent.filter (fun e => e.h == hash)
    (hits.length, hits.getLast?.map Attempt.t)
  else (0, none)

/-- The rapid-retry trigger `s.lastDeniedAt ? now - s.lastDeniedAt <
cfg.heuristics.rapidRetryMs : false`; a stored denial timestamp of `0` is
falsy and therefore ignored. -/
def rapidRetryFlag (cfg : RouteRateConfig) (s : State) (now : ℚ) : Bool :=
  match s.lastDeniedAt with
  | some d => if d = 0 then false else decide (now - d < cfg.heuristics.rapidRetryMs)
  | none => false

/-- The maintenance phase shared by `isAllowed` and `record`: prune the
sliding window and the content history, then refill the token bucket. -/
def maintainState (cfg : RouteRateConfig) (s : State) (now : ℚ) : State :=
  refillTokens cfg (pruneContentHistory cfg (pruneWindow cfg s now) now) now

/-- The duplicate-burst trigger: the duplicate count within the window has
reached `duplicateThreshold`. -/
def dupTrigB (cfg : RouteRateConfig) (sig : Option String) (s : State)
    (now : ℚ) : Bool :=
  decide (cfg.heuristics.duplicateThreshold ≤
    (((countDuplicate s sig now cfg.heuristics.duplicateWindowMs).1 : ℚ)))

/-- The multi-tab-spike trigger: the number of attempts inside the spike
window has reached `spikeThreshold`. -/
def spikeTrigB (cfg : RouteRateConfig) (s : State) (now : ℚ) : Bool :=
  decide (cfg.heuristics.spikeThreshold ≤
    ((countRecentAttempts s cfg.heuristics.spikeWindowMs now : ℚ)))

/-- The sliding-window capacity check: `windowCount >= max`. -/
def windowHitB (cfg : RouteRateConfig) (s : State) : Bool :=
  decide (cfg.sliding.max ≤ (s.attempts.length : ℚ))

/-- The token-bucket capacity check: fewer than one token after refill. -/
def tokenHitB (s : State) : Bool :=
  decide (s.tokens < 1)

/-- The retry estimate (ms) the duplicate-burst heuristic contributes: the
time until the earliest matching fingerprint leaves the window, pushed only
when that timestamp is truthy (`if (dup.earliestTs)`). -/
def dupRetryMsList (cfg : RouteRateConfig) (sig : Option String) (s : State)
    (now : ℚ) : List ℚ :=
  match (countDuplicate s sig now cfg.heuristics.duplicateWindowMs).2 with
  | some e =>
      if e = 0 then [] else [cfg.heuristics.duplicateWindowMs - (now - e)]
  | none => []

/-- The retry estimate (ms) of the rapid-retry heuristic. -/
def rapidRetryMsOf (cfg : RouteRateConfig) (s : State) (now : ℚ) : ℚ :=
  cfg.heuristics.rapidRetryMs - (now - (s.lastDeniedAt.getD now))

/-- The retry estimate (ms) of the multi-tab-spike heuristic. -/
def spikeRetryMsOf (cfg : RouteRateConfig) : ℚ :=
  cfg.heuristics.spikeWindowMs

/-- The retry estimate (ms) of the sliding-window limit. -/
def windowRetryMsOf (cfg : RouteRateConfig) (s : State) (now : ℚ) : ℚ :=
  cfg.sliding.windowMs -
    (now - (match s.attempts.head? with | some a => a.t | none => now))

/-- The retry estimate (ms) of the token-bucket limit. -/
def tokenRetryMsOf (cfg : RouteRateConfig) (s : State) : ℚ :=
  (1 - s.tokens) / cfg.bucket.refillPerSecond * 1000

/-- The retry candidates (ms) of all triggered conditions, in push order. -/
def retryCandidatesOf (cfg : RouteRateConfig) (sig : Option String)
    (s : State) (now : ℚ) : List ℚ :=
  (if dupTrigB cfg sig s now then dupRetryMsList cfg sig s now else []) ++
  (if rapidRetryFlag cfg s now then [rapidRetryMsOf cfg s now] else []) ++
  (if spikeTrigB cfg s now then [spikeRetryMsOf cfg] else []) ++
  (if windowHitB cfg s then [windowRetryMsOf cfg s now] else []) ++
  (if tokenHitB s then [tokenRetryMsOf cfg s] else [])

/-- The per-condition retry estimates of all triggered conditions, converted
to whole seconds individually. -/
def retrySecsList (cfg : RouteRateConfig) (sig : Option String) (s : State)
    (now : ℚ) : List ℤ :=
  (retryCandidatesOf cfg sig s now).map secs

/-- The reason the fixed priority order dictates: the first triggered
heuristic in the order duplicate-burst, rapid-retries, multi-tab-spike, then
plain `rate_limited` on a capacity hit, else `ok`. -/
def expectedReason (cfg : RouteRateConfig) (sig : Option String) (s : State)
    (now : ℚ) : AbuseReason :=
  if dupTrigB cfg sig s now then AbuseReason.duplicate_burst
  else if rapidRetryFlag cfg s now then AbuseReason.rapid_retries
  else if spikeTrigB cfg s now then AbuseReason.multi_tab_spike
  else if windowHitB cfg s || tokenHitB s then AbuseReason.rate_limited
  else AbuseReason.ok

/-- The decision logic of `RateLimiter.isAllowed` after maintenance: from the
pruned, refilled state compute the decision and the state with denial memory
updated. `sig` is the content signature of the context. -/
def decisionOf (cfg : RouteRateConfig) (now : ℚ) (key : String)
    (sig : Option String) (s : State) : RateLimitDecision × State :=
  let rapidRetry := rapidRetryFlag cfg s now
  let dupTrig := dupTrigB cfg sig s now
  let spikeTrig := spikeTrigB cfg s now
  let windowCount := s.attempts.length
  let windowLimitHit := windowHitB cfg s
  let tokenLimitHit := tokenHitB s
  let heuristicsTriggered : List AbuseReason :=
    (if dupTrig then [AbuseReason.duplicate_burst] else []) ++
    (if rapidRetry then [AbuseReason.rapid_retries] else []) ++
    (if spikeTrig then [AbuseReason.multi_tab_spike] else [])
  let retryCandidates : List ℚ := retryCandidatesOf cfg sig s now
  let ra : AbuseReason × Bool :=
    match heuristicsTriggered with
    | r :: _ => (r, false)
    | [] =>
        if windowLimitHit || tokenLimitHit then (AbuseReason.rate_limited, false)
        else (AbuseReason.ok, true)
  let retryAfter : ℤ :=
    if ra.2 then 0 else Max.max 1 (secs (retryCandidates.foldl Max.max 0))
  let s' := if ra.2 then s else { s with lastDeniedAt := some now }
  let remaining := clamp (cfg.sliding.max - (windowCount : ℚ)) 0 cfg.sliding.max
  ({ allowed := ra.2, reason := ra.1, retryAfter := retryAfter, key := key,
     remaining := remaining, limit := cfg.sliding.max }, s')

/-- `RateLimiter.isAllowed` for a fixed route (the route configuration,
already merged and clamped by `routeConfig`, is passed in directly). -/
def isAllowed (hashFn : String → String) (cfg : RouteRateConfig)
    (opts : StoreConfig) (dateNow : ℚ) (st : Store) (ctx : RateLimitContext) :
    RateLimitDecision × Store :=
  let now := nowMsOverride dateNow ctx.nowMs
  let key := compositeKey hashFn ctx.ip ctx.sessionId ctx.route
  let p := getOrCreate opts cfg key ctx.route now st
  let s3 := maintainState cfg p.1 now
  let sig := contentSig hashFn ctx
  let q := decisionOf cfg now key sig s3
  (q.1, { p.2 with entries := setEntry p.2.entries key q.2 })

/-- The commit phase of `RateLimiter.record` on the maintained state: always
append the attempt; when the supplied decision was allowed, consume one token
(floored at 0) and append a truthy fingerprint to the content history;
otherwise update denial memory. Finally re-prune and bound the attempts. -/
def commitRecord (cfg : RouteRateConfig) (now : ℚ) (sig : Option String)
    (dec : RateLimitDecision) (s3 : State) : State :=
  let s4 := { s3 with attempts := s3.attempts ++ [({ t := now, h := sig } : Attempt)] }
  let s5 :=
    if dec.allowed then
      { s4 with
          tokens := Max.max 0 (s4.tokens - 1),
          contentHistory :=
            if truthyStr sig then s4.contentHistory ++ [({ t := now, h := sig } : Attempt)]
            else s4.contentHistory }
    else { s4 with lastDeniedAt := some now }
  let att1 := s5.attempts.dropWhile
    (fun (a : Attempt) => decide (a.t ≤ now - cfg.sliding.windowMs))
  let att2 := if att1.length > 2000 then att1.drop (att1.length - 2000) else att1
  { s5 with attempts := att2 }

/-- `RateLimiter.record` for a fixed route. -/
def record (hashFn : String → String) (cfg : RouteRateConfig)
    (opts : StoreConfig) (dateNow : ℚ) (st : Store) (ctx : RateLimitContext)
    (dec : RateLimitDecision) : RecordResult × Store :=
  let now := nowMsOverride dateNow ctx.nowMs
  let key := compositeKey hashFn ctx.ip ctx.sessionId ctx.route
  let p := getOrCreate opts cfg key ctx.route now st
  let sig := contentSig hashFn ctx
  let s6 := commitRecord cfg now sig dec (maintainState cfg p.1 now)
  ({ key := key, route := ctx.route, tokens := ⌊s6.tokens⌋,
     windowCount := s6.attempts.length, expiresAt := s6.expiresAt },
   { p.2 with entries := setEntry p.2.entries key s6 })

/-- One call of the public interface, for building call sequences. -/
inductive Op
  | isAllowedOp (dateNow : ℚ) (ctx : RateLimitContext)
  | recordOp (dateNow : ℚ) (ctx : RateLimitContext) (dec : RateLimitDecision)

/-- The store transition of one call. -/
def step (hashFn : String → String) (cfg : RouteRateConfig)
    (opts : StoreConfig) (st : Store) : Op → Store
  | Op.isAllowedOp dn ctx => (isAllowed hashFn cfg opts dn st ctx).2
  | Op.recordOp dn ctx dec => (record hashFn cfg opts dn st ctx dec).2

/-- Run a finite sequence of calls against a store. -/
def run (hashFn : String → String) (cfg : RouteRateConfig)
    (opts : StoreConfig) (st : Store) (ops : List Op) : Store :=
  ops.foldl (step hashFn cfg opts) st

/-! ### Concrete configurations and scenario runs -/

/-- A concrete instantiation of the abstract hash for scenarios (the
scenarios identify requests by explicit fingerprints, so any function
serves). -/
def idHash : String → String := fun s => s

/-- The `DEFAULTS.store` configuration of the source. -/
def defaultStoreConfig : StoreConfig :=
  { maxEntries := 10000, idleTtlMs := 900000, minSweepIntervalMs := 10000 }

/-- The `DEFAULTS.defaults.heuristics` configuration of the source. -/
def defaultHeuristics : HeuristicsConfig :=
  { duplicateWindowMs := 10000, duplicateThreshold := 4,
    rapidRetryMs := 3000, spikeWindowMs := 250, spikeThreshold := 8 }

/-- The `DEFAULTS.defaults` route configuration of the source. -/
def defaultRouteConfig : RouteRateConfig :=
  { sliding := { windowMs := 60000, max := 60 },
    bucket := { capacity := 30, refillPerSecond := 10 },
    heuristics := defaultHeuristics }

/-- The spec's example route configuration: sliding window 60000 ms with
max 3, bucket capacity 3 refilling 1 token per second. -/
def scenarioCfg : RouteRateConfig :=
  { sliding := { windowMs := 60000, max := 3 },
    bucket := { capacity := 3, refillPerSecond := 1 },
    heuristics := defaultHeuristics }

/-- A context for one fixed identity with an explicit fingerprint at an
explicit time. -/
def scenarioCtx (t : ℚ) (fp : String) : RateLimitContext :=
  { route := "r", ip := some "ip", sessionId := some "s",
    contentFingerprint := some fp, nowMs := some t }

/-- `isAllowed` followed by `record` of the returned decision, as callers
use the limiter. -/
def checkAndRecord (cfg : RouteRateConfig) (st : Store) (t : ℚ) (fp : String) :
    RateLimitDecision × Store :=
  let r := isAllowed idHash cfg defaultStoreConfig 0 st (scenarioCtx t fp)
  (r.1, (record idHash cfg defaultStoreConfig 0 r.2 (scenarioCtx t fp) r.1).2)

/-- Spec example: three distinct-content calls at t = 0, 1000, 2000 ms. -/
def c2call1 : RateLimitDecision × Store := checkAndRecord scenarioCfg emptyStore 0 "a"

/-- Second scenario call. -/
def c2call2 : RateLimitDecision × Store := checkAndRecord scenarioCfg c2call1.2 1000 "b"

/-- Third scenario call. -/
def c2call3 : RateLimitDecision × Store := checkAndRecord scenarioCfg c2call2.2 2000 "c"

/-- The decision of the fourth scenario call at t = 2500 ms. -/
def c2decision4 : RateLimitDecision :=
  (isAllowed idHash scenarioCfg defaultStoreConfig 0 c2call3.2 (scenarioCtx 2500 "d")).1

/-- First of the identical-content calls (default route config: duplicate
threshold 4 within 10 s; sliding 60/60000 and bucket 30/10 have headroom). -/
def dupCall1 : RateLimitDecision × Store := checkAndRecord defaultRouteConfig emptyStore 0 "x"

/-- Second identical-content call, t = 1000 ms. -/
def dupCall2 : RateLimitDecision × Store := checkAndRecord defaultRouteConfig dupCall1.2 1000 "x"

/-- Third identical-content call, t = 2000 ms. -/
def dupCall3 : RateLimitDecision × Store := checkAndRecord defaultRouteConfig dupCall2.2 2000 "x"

/-- Fourth identical-content call, t = 3000 ms. -/
def dupCall4 : RateLimitDecision × Store := checkAndRecord defaultRouteConfig dupCall3.2 3000 "x"

/-- The decision of a fifth identical-content call at t = 4000 ms. -/
def dupDecision5 : RateLimitDecision :=
  (isAllowed idHash defaultRouteConfig defaultStoreConfig 0 dupCall4.2 (scenarioCtx 4000 "x")).1


/-- A denied decision as a caller would hand to `record`. -/
def deniedDecision : RateLimitDecision :=
  { allowed := false, reason := AbuseReason.rate_limited, retryAfter := 1,
    key := "", remaining := 0, limit := 60 }

/-- The store after `record` of a denied attempt at t = 0: the key's
`lastDeniedAt` becomes `0`. -/
def zeroDenialStore : Store :=
  (record idHash defaultRouteConfig defaultStoreConfig 0 emptyStore
    (scenarioCtx 0 "q") deniedDecision).2

/-- The decision of an `isAllowed` call 100 ms after that denial. -/
def zeroDenialDecision : RateLimitDecision :=
  (isAllowed idHash defaultRouteConfig defaultStoreConfig 0 zeroDenialStore
    (scenarioCtx 100 "p")).1

/-- A key state carrying a nonzero denial timestamp, for instantiating the
rapid-retry theorem. -/
def c5WitnessState : State :=
  { key := compositeKey idHash (some "ip") (some "s") "r", route := "r",
    tokens := 30, lastRefill := 0, attempts := [], contentHistory := [],
    lastSeen := 0, expiresAt := 900000, lastDeniedAt := some 5 }

/-- A store holding `c5WitnessState` under the scenario identity's key. -/
def c5WitnessStore : Store :=
  { entries := [(compositeKey idHash (some "ip") (some "s") "r", c5WitnessState)],
    lastSweep := 0 }


/-- The composite key `isAllowed` and `record` touch for a context. -/
def ctxKey (hashFn : String → String) (ctx : RateLimitContext) : String :=
  compositeKey hashFn ctx.ip ctx.sessionId ctx.route

/-- The maintained (pruned and refilled) state a call starts from. -/
def maintainedFor (hashFn : String → String) (cfg : RouteRateConfig)
    (opts : StoreConfig) (dateNow : ℚ) (st : Store)
    (ctx : RateLimitContext) : State :=
  maintainState cfg
    (getOrCreate opts cfg (ctxKey hashFn ctx) ctx.route
      (nowMsOverride dateNow ctx.nowMs) st).1
    (nowMsOverride dateNow ctx.nowMs)

/-- The state `record` commits for the touched key. -/
def recordedState (hashFn : String → String) (cfg : RouteRateConfig)
    (opts : StoreConfig) (dateNow : ℚ) (st : Store) (ctx : RateLimitContext)
    (dec : RateLimitDecision) : State :=
  commitRecord cfg (nowMsOverride dateNow ctx.nowMs) (contentSig hashFn ctx)
    dec (maintainedFor hashFn cfg opts dateNow st ctx)

/-- What C7 asserts of one `record` call: the store commits exactly the
`recordedState`; that state's attempt list ends with exactly one new attempt
carrying the call's timestamp and signature appended after a suffix of the
maintained history; an allowed decision consumes one token (floored at 0,
after refill) and appends a truthy fingerprint to the content history; a
denied decision leaves tokens and content history unchanged and only sets
the denial timestamp. -/
def RecordSpec (hashFn : String → String) (cfg : RouteRateConfig)
    (opts : StoreConfig) (dateNow : ℚ) (st : Store) (ctx : RateLimitContext)
    (dec : RateLimitDecision) : Prop :=
  (record hashFn cfg opts dateNow st ctx dec).2.entries
    = setEntry (getOrCreate opts cfg (ctxKey hashFn ctx) ctx.route
        (nowMsOverride dateNow ctx.nowMs) st).2.entries (ctxKey hashFn ctx)
        (recordedState hashFn cfg opts dateNow st ctx dec) ∧
  (recordedState hashFn cfg opts dateNow st ctx dec).attempts.getLast?
    = some ({ t := nowMsOverride dateNow ctx.nowMs,
              h := contentSig hashFn ctx } : Attempt) ∧
  (recordedState hashFn cfg opts dateNow st ctx dec).attempts.dropLast
    <:+ (maintainedFor hashFn cfg opts dateNow st ctx).attempts ∧
  (dec.allowed = true →
    (recordedState hashFn cfg opts dateNow st ctx dec).tokens
      = Max.max 0 ((maintainedFor hashFn cfg opts dateNow st ctx).tokens - 1) ∧
    (recordedState hashFn cfg opts dateNow st ctx dec).contentHistory
      = (if truthyStr (contentSig hashFn ctx) then
          (maintainedFor hashFn cfg opts dateNow st ctx).contentHistory ++
            [({ t := nowMsOverride dateNow ctx.nowMs,
                h := contentSig hashFn ctx } : Attempt)]
        else (maintainedFor hashFn cfg opts dateNow st ctx).contentHistory) ∧
    (recordedState hashFn cfg opts dateNow st ctx dec).lastDeniedAt
      = (maintainedFor hashFn cfg opts dateNow st ctx).lastDeniedAt) ∧
  (dec.allowed = false →
    (recordedState hashFn cfg opts dateNow st ctx dec).tokens
      = (maintainedFor hashFn cfg opts dateNow st ctx).tokens ∧
    (recordedState hashFn cfg opts dateNow st ctx dec).contentHistory
      = (maintainedFor hashFn cfg opts dateNow st ctx).contentHistory ∧
    (recordedState hashFn cfg opts dateNow st ctx dec).lastDeniedAt
      = some (nowMsOverride dateNow ctx.nowMs))


/-- The representation invariant of a JavaScript `Map`: distinct keys. -/
def goodStore (st : Store) : Prop := (st.entries.map Prod.fst).Nodup


/-- The default route configuration with `duplicateThreshold` lowered to 2. -/
def dupThreshold2Cfg : RouteRateConfig :=
  { defaultRouteConfig with
      heuristics := { defaultHeuristics with duplicateThreshold := 2 } }

/-- Identical-content call at t = 0 under the threshold-2 configuration. -/
def c4call1 : RateLimitDecision × Store :=
  checkAndRecord dupThreshold2Cfg emptyStore 0 "x"

/-- Identical-content call at t = 1 ms. -/
def c4call2 : RateLimitDecision × Store :=
  checkAndRecord dupThreshold2Cfg c4call1.2 1 "x"

/-- The maintained state the third call at t = 2 ms computes its decision
from. -/
def c4state3 : State :=
  maintainedFor idHash dupThreshold2Cfg defaultStoreConfig 0 c4call2.2
    (scenarioCtx 2 "x")

/-- The decision of the third identical-content call at t = 2 ms. -/
def c4decision3 : RateLimitDecision :=
  (isAllowed idHash dupThreshold2Cfg defaultStoreConfig 0 c4call2.2
    (scenarioCtx 2 "x")).1


/-- A JavaScript number for the configuration-normalization model: finite
rationals plus `NaN` and the two infinities. -/
inductive JsNum
  | nan
  | posInf
  | negInf
  | num (q : ℚ)
deriving DecidableEq, Repr

/-- `Math.max` on JavaScript numbers: `NaN` if either argument is `NaN`,
otherwise the usual maximum with infinities. -/
def jsMax : JsNum → JsNum → JsNum
  | JsNum.nan, _ => JsNum.nan
  | _, JsNum.nan => JsNum.nan
  | JsNum.posInf, _ => JsNum.posInf
  | _, JsNum.posInf => JsNum.posInf
  | JsNum.negInf, b => b
  | a, JsNum.negInf => a
  | JsNum.num a, JsNum.num b => JsNum.num (Max.max a b)

/-- The JavaScript comparison `a <= b`: false whenever `NaN` is involved. -/
def jsLe : JsNum → JsNum → Bool
  | JsNum.nan, _ => false
  | _, JsNum.nan => false
  | JsNum.negInf, _ => true
  | _, JsNum.posInf => true
  | JsNum.posInf, _ => false
  | _, JsNum.negInf => false
  | JsNum.num a, JsNum.num b => decide (a ≤ b)

/-- Finiteness of a JavaScript number. -/
def isFiniteJs : JsNum → Bool
  | JsNum.num _ => true
  | _ => false

/-- A supplied-or-absent field is finite when supplied. -/
def finiteOrAbsent : Option JsNum → Bool
  | some v => isFiniteJs v
  | none => true

/-- `RouteRateConfig` over JavaScript numbers (the nine numeric leaves). -/
structure JsRouteConfig where
  windowMs : JsNum
  max : JsNum
  capacity : JsNum
  refillPerSecond : JsNum
  duplicateWindowMs : JsNum
  duplicateThreshold : JsNum
  rapidRetryMs : JsNum
  spikeWindowMs : JsNum
  spikeThreshold : JsNum
deriving DecidableEq, Repr

/-- `Partial<RouteRateConfig>`: each numeric leaf optionally supplied
(`override.sliding?.windowMs` is `undefined` when the group or the leaf is
absent). -/
structure JsPartialRouteConfig where
  windowMs : Option JsNum := none
  max : Option JsNum := none
  capacity : Option JsNum := none
  refillPerSecond : Option JsNum := none
  duplicateWindowMs : Option JsNum := none
  duplicateThreshold : Option JsNum := none
  rapidRetryMs : Option JsNum := none
  spikeWindowMs : Option JsNum := none
  spikeThreshold : Option JsNum := none
deriving DecidableEq, Repr

/-- `DEFAULTS.defaults` of the source over JavaScript numbers. -/
def jsDefaults : JsRouteConfig :=
  { windowMs := JsNum.num 60000, max := JsNum.num 60,
    capacity := JsNum.num 30, refillPerSecond := JsNum.num 10,
    duplicateWindowMs := JsNum.num 10000, duplicateThreshold := JsNum.num 4,
    rapidRetryMs := JsNum.num 3000, spikeWindowMs := JsNum.num 250,
    spikeThreshold := JsNum.num 8 }

/-- `mergeRouteConfig`: `if (!override) return base`, otherwise take each
overridden leaf (`?? base`), then clamp every leaf with
`Math.max(min, value)`. -/
def mergeRouteConfig (base : JsRouteConfig)
    (override : Option JsPartialRouteConfig) : JsRouteConfig :=
  match override with
  | none => base
  | some o =>
      let merged : JsRouteConfig :=
        { windowMs := o.windowMs.getD base.windowMs,
          max := o.max.getD base.max,
          capacity := o.capacity.getD base.capacity,
          refillPerSecond := o.refillPerSecond.getD base.refillPerSecond,
          duplicateWindowMs := o.duplicateWindowMs.getD base.duplicateWindowMs,
          duplicateThreshold :=
            o.duplicateThreshold.getD base.duplicateThreshold,
          rapidRetryMs := o.rapidRetryMs.getD base.rapidRetryMs,
          spikeWindowMs := o.spikeWindowMs.getD base.spikeWindowMs,
          spikeThreshold := o.spikeThreshold.getD base.spikeThreshold }
      { windowMs := jsMax (JsNum.num 1000) merged.windowMs,
        max := jsMax (JsNum.num 1) merged.max,
        capacity := jsMax (JsNum.num 1) merged.capacity,
        refillPerSecond := jsMax (JsNum.num (1 / 10)) merged.refillPerSecond,
        duplicateWindowMs := jsMax (JsNum.num 1000) merged.duplicateWindowMs,
        duplicateThreshold := jsMax (JsNum.num 2) merged.duplicateThreshold,
        rapidRetryMs := jsMax (JsNum.num 250) merged.rapidRetryMs,
        spikeWindowMs := jsMax (JsNum.num 50) merged.spikeWindowMs,
        spikeThreshold := jsMax (JsNum.num 3) merged.spikeThreshold }

/-- The defaults held by a constructed `RateLimiter`:
`cfg?.defaults ? mergeRouteConfig(DEFAULTS.defaults, cfg.defaults) :
DEFAULTS.defaults`. -/
def constructedDefaults (cfgDefaults : Option JsPartialRouteConfig) :
    JsRouteConfig :=
  match cfgDefaults with
  | some o => mergeRouteConfig jsDefaults (some o)
  | none => jsDefaults

/-- `RateLimiter.routeConfig`: the effective config `isAllowed`/`record`
use, merging the per-route override over the constructed defaults. -/
def effectiveRouteConfig (cfgDefaults routeOverride :
    Option JsPartialRouteConfig) : JsRouteConfig :=
  mergeRouteConfig (constructedDefaults cfgDefaults) routeOverride

/-- The nine stated positive minimums, under JavaScript comparison. -/
def meetsMinimums (c : JsRouteConfig) : Bool :=
  jsLe (JsNum.num 1000) c.windowMs && jsLe (JsNum.num 1) c.max &&
  jsLe (JsNum.num 1) c.capacity &&
  jsLe (JsNum.num (1 / 10)) c.refillPerSecond &&
  jsLe (JsNum.num 1000) c.duplicateWindowMs &&
  jsLe (JsNum.num 2) c.duplicateThreshold &&
  jsLe (JsNum.num 250) c.rapidRetryMs &&
  jsLe (JsNum.num 50) c.spikeWindowMs &&
  jsLe (JsNum.num 3) c.spikeThreshold

/-- All nine leaves finite. -/
def allFiniteCfg (c : JsRouteConfig) : Bool :=
  isFiniteJs c.windowMs && isFiniteJs c.max && isFiniteJs c.capacity &&
  isFiniteJs c.refillPerSecond && isFiniteJs c.duplicateWindowMs &&
  isFiniteJs c.duplicateThreshold && isFiniteJs c.rapidRetryMs &&
  isFiniteJs c.spikeWindowMs && isFiniteJs c.spikeThreshold

/-- Every supplied leaf finite. -/
def allFinitePartial (o : JsPartialRouteConfig) : Bool :=
  finiteOrAbsent o.windowMs && finiteOrAbsent o.max &&
  finiteOrAbsent o.capacity && finiteOrAbsent o.refillPerSecond &&
  finiteOrAbsent o.duplicateWindowMs && finiteOrAbsent o.duplicateThreshold &&
  finiteOrAbsent o.rapidRetryMs && finiteOrAbsent o.spikeWindowMs &&
  finiteOrAbsent o.spikeThreshold

/-- A per-route override supplying `windowMs = NaN`. -/
def nanWindowOverride : JsPartialRouteConfig := { windowMs := some JsNum.nan }


/-- The token-range invariant of every entry in the store. -/
def tokensInv (cfg : RouteRateConfig) (st : Store) : Prop :=
  ∀ e ∈ st.entries, 0 ≤ e.2.tokens ∧ e.2.tokens ≤ cfg.bucket.capacity


/-- The C8 store invariant: distinct truthy keys, size within the cap. -/
def sizeInv (m : ℕ) (st : Store) : Prop :=
  goodStore st ∧ (∀ k ∈ st.entries.map Prod.fst, k ≠ "") ∧
  st.entries.length ≤ m

/-- A hash that never returns the empty string, for concrete C8 runs. -/
def nzHash : String → String := fun s => "k" ++ s

/-- A store configuration capping the map at one entry. -/
def oneEntryStoreConfig : StoreConfig :=
  { maxEntries := 1, idleTtlMs := 900000, minSweepIntervalMs := 10000 }


/-- Default route config with sliding max lowered to 1. -/
def c6Cfg : RouteRateConfig :=
  { defaultRouteConfig with sliding := { windowMs := 60000, max := 1 } }

/-- One allowed, recorded attempt at t = 1000 ms. -/
def c6setup : RateLimitDecision × Store := checkAndRecord c6Cfg emptyStore 1000 "a"

/-- First of two identical calls at t = 2000 ms (window full, so denied). -/
def c6first : RateLimitDecision × Store :=
  isAllowed idHash c6Cfg defaultStoreConfig 0 c6setup.2 (scenarioCtx 2000 "b")

/-- Immediately repeated identical call at the same `nowMs`. -/
def c6second : RateLimitDecision × Store :=
  isAllowed idHash c6Cfg defaultStoreConfig 0 c6first.2 (scenarioCtx 2000 "b")

-- DEFS_END_MARKER

/-! ### Theorems -/

/-- C2: with sliding `{60000, 3}` and bucket `{3, 1}`, three distinct-content
calls at t = 0, 1000, 2000 ms are all allowed, and a fourth `isAllowed` at
t = 2500 ms is denied with reason `rate_limited` and `retryAfter ≥ 58`
seconds (the sliding window, not the bucket, is binding). -/
theorem scenario_fourth_call_rate_limited :
    c2call1.1.allowed = true ∧ c2call2.1.allowed = true ∧
    c2call3.1.allowed = true ∧ c2decision4.allowed = false ∧
    c2decision4.reason = AbuseReason.rate_limited ∧
    58 ≤ c2decision4.retryAfter := by
  with_unfolding_all decide

/-- C3 counterexample: with `duplicateThreshold = 4` and a 10 s window, the
fourth of four identical-content calls within 5 seconds is NOT denied:
`countDuplicate` counts only previously recorded attempts, of which there are
three at the fourth call, and 3 < 4, so the fourth call is allowed with
reason `ok` (the three earlier calls are allowed as well). -/
theorem duplicate_burst_fourth_call_allowed :
    dupCall1.1.allowed = true ∧ dupCall2.1.allowed = true ∧
    dupCall3.1.allowed = true ∧ dupCall4.1.allowed = true ∧
    dupCall4.1.reason = AbuseReason.ok := by
  with_unfolding_all decide

/-- C3 amended: the triggering call is the one that already has
`duplicateThreshold` recorded identical fingerprints inside the window, i.e.
the `duplicateThreshold + 1`-th submission; with threshold 4, the fifth of
five identical-content calls within the 10 s window is denied with reason
`duplicate_burst` even though the sliding window and the token bucket both
have headroom. -/
theorem duplicate_burst_fifth_call_denied :
    dupDecision5.allowed = false ∧
    dupDecision5.reason = AbuseReason.duplicate_burst := by
  with_unfolding_all decide

/-- Maintenance (pruning and refilling) never changes denial memory. -/
theorem maintainState_lastDeniedAt (cfg : RouteRateConfig) (s : State)
    (now : ℚ) : (maintainState cfg s now).lastDeniedAt = s.lastDeniedAt := by
  unfold maintainState refillTokens pruneContentHistory pruneWindow
  split <;> rfl

/-- When the rapid-retry flag is up, the decision denies with reason
`rapid_retries` or the higher-priority `duplicate_burst`. -/
theorem decisionOf_rapid_denies (cfg : RouteRateConfig) (now : ℚ)
    (key : String) (sig : Option String) (s : State)
    (h : rapidRetryFlag cfg s now = true) :
    (decisionOf cfg now key sig s).1.allowed = false ∧
    ((decisionOf cfg now key sig s).1.reason = AbuseReason.duplicate_burst ∨
     (decisionOf cfg now key sig s).1.reason = AbuseReason.rapid_retries) := by
  unfold decisionOf
  rw [h]
  cases hd : dupTrigB cfg sig s now <;> simp [hd]

/-- C5 counterexample: a denial recorded at timestamp 0 stores
`lastDeniedAt = 0`, which the truthiness guard `s.lastDeniedAt ? ... : false`
treats as absent; an attempt 100 ms later (well inside the 3000 ms
rapid-retry window) is allowed with reason `ok`. -/
theorem rapid_retry_missed_at_zero_timestamp :
    (lookupEntry zeroDenialStore.entries
        (compositeKey idHash (some "ip") (some "s") "r")).map State.lastDeniedAt
      = some (some 0) ∧
    (100 : ℚ) - 0 < defaultRouteConfig.heuristics.rapidRetryMs ∧
    zeroDenialDecision.allowed = true ∧
    zeroDenialDecision.reason = AbuseReason.ok := by
  with_unfolding_all decide

/-- C5 amended: for a key state holding a NONZERO denial timestamp `d`, any
`isAllowed` call with `now - d < rapidRetryMs` is denied with reason
`rapid_retries` or the higher-priority `duplicate_burst`, regardless of
token and window headroom (a denial timestamp of exactly 0 is falsy in the
source's guard and is ignored). -/
theorem rapid_retry_denies (hashFn : String → String) (cfg : RouteRateConfig)
    (opts : StoreConfig) (dateNow : ℚ) (st : Store) (ctx : RateLimitContext)
    (s0 : State) (d : ℚ)
    (hs : lookupEntry st.entries
        (compositeKey hashFn ctx.ip ctx.sessionId ctx.route) = some s0)
    (hd : s0.lastDeniedAt = some d) (hdz : d ≠ 0)
    (hwin : nowMsOverride dateNow ctx.nowMs - d < cfg.heuristics.rapidRetryMs) :
    (isAllowed hashFn cfg opts dateNow st ctx).1.allowed = false ∧
    ((isAllowed hashFn cfg opts dateNow st ctx).1.reason = AbuseReason.duplicate_burst ∨
     (isAllowed hashFn cfg opts dateNow st ctx).1.reason = AbuseReason.rapid_retries) := by
  have hflag : rapidRetryFlag cfg
      (maintainState cfg
        { s0 with lastSeen := nowMsOverride dateNow ctx.nowMs,
                  expiresAt := nowMsOverride dateNow ctx.nowMs + opts.idleTtlMs }
        (nowMsOverride dateNow ctx.nowMs)) (nowMsOverride dateNow ctx.nowMs) = true := by
    unfold rapidRetryFlag
    rw [maintainState_lastDeniedAt]
    simp only [hd]
    simp [hdz, hwin]
  simp only [isAllowed, getOrCreate, hs]
  exact decisionOf_rapid_denies _ _ _ _ _ hflag

/-- Witness for `rapid_retry_denies` at a concrete store and call. -/
theorem rapid_retry_denies_witness :
    (lookupEntry c5WitnessStore.entries
        (compositeKey idHash (some "ip") (some "s") "r") = some c5WitnessState ∧
     c5WitnessState.lastDeniedAt = some 5 ∧ (5 : ℚ) ≠ 0 ∧
     nowMsOverride 0 (scenarioCtx 100 "w").nowMs - 5 <
       defaultRouteConfig.heuristics.rapidRetryMs) ∧
    ((isAllowed idHash defaultRouteConfig defaultStoreConfig 0 c5WitnessStore
        (scenarioCtx 100 "w")).1.allowed = false ∧
     ((isAllowed idHash defaultRouteConfig defaultStoreConfig 0 c5WitnessStore
        (scenarioCtx 100 "w")).1.reason = AbuseReason.duplicate_burst ∨
      (isAllowed idHash defaultRouteConfig defaultStoreConfig 0 c5WitnessStore
        (scenarioCtx 100 "w")).1.reason = AbuseReason.rapid_retries)) :=
  ⟨⟨by rfl, rfl, by with_unfolding_all decide,
    by with_unfolding_all decide⟩,
   rapid_retry_denies idHash defaultRouteConfig defaultStoreConfig 0
     c5WitnessStore (scenarioCtx 100 "w") c5WitnessState 5
     (by rfl) rfl (by with_unfolding_all decide)
     (by with_unfolding_all decide)⟩

/-- If the last element fails the predicate, `dropWhile` distributes over
appending it. -/
theorem dropWhile_append_singleton {α : Type} (p : α → Bool) (l : List α)
    (a : α) (h : p a = false) :
    (l ++ [a]).dropWhile p = l.dropWhile p ++ [a] := by
  rw [List.dropWhile_append]
  split
  · next he =>
      rw [List.isEmpty_iff] at he
      simp [he, List.dropWhile_cons, h]
  · rfl

/-- The trimmed-and-bounded attempts list of `commitRecord` is the freshly
appended attempt after a suffix of the maintained attempts. -/
theorem commitRecord_attempts (cfg : RouteRateConfig) (now : ℚ)
    (sig : Option String) (dec : RateLimitDecision) (s3 : State)
    (hw : 0 < cfg.sliding.windowMs) :
    (commitRecord cfg now sig dec s3).attempts.getLast?
      = some ({ t := now, h := sig } : Attempt) ∧
    (commitRecord cfg now sig dec s3).attempts.dropLast <:+ s3.attempts := by
  have hp : (fun (a : Attempt) => decide (a.t ≤ now - cfg.sliding.windowMs))
      ({ t := now, h := sig } : Attempt) = false := by
    simp only [decide_eq_false_iff_not, not_le]
    linarith
  set L := s3.attempts.dropWhile
    (fun (a : Attempt) => decide (a.t ≤ now - cfg.sliding.windowMs)) with hL
  set A := L ++ [({ t := now, h := sig } : Attempt)] with hA
  have hatt : (commitRecord cfg now sig dec s3).attempts
      = if A.length > 2000 then A.drop (A.length - 2000) else A := by
    unfold commitRecord
    cases dec.allowed <;>
      simp only [Bool.false_eq_true, if_true, if_false, reduceIte] <;>
      rw [dropWhile_append_singleton
        (fun (a : Attempt) => decide (a.t ≤ now - cfg.sliding.windowMs))
        s3.attempts ({ t := now, h := sig } : Attempt) hp]
  rw [hatt]
  split
  · next hlen =>
      have hk : A.length - 2000 ≤ L.length := by
        simp only [hA, List.length_append, List.length_singleton]
        omega
      rw [hA, List.drop_append_of_le_length hk]
      constructor
      · exact List.getLast?_concat _
      · rw [List.dropLast_concat]
        exact (List.drop_suffix _ _).trans (List.dropWhile_suffix _)
  · constructor
    · exact List.getLast?_concat _
    · rw [hA, List.dropLast_concat]
      exact List.dropWhile_suffix _

/-- The field effects of `commitRecord` besides the attempt append. -/
theorem commitRecord_effects (cfg : RouteRateConfig) (now : ℚ)
    (sig : Option String) (dec : RateLimitDecision) (s3 : State) :
    (dec.allowed = true →
      (commitRecord cfg now sig dec s3).tokens = Max.max 0 (s3.tokens - 1) ∧
      (commitRecord cfg now sig dec s3).contentHistory
        = (if truthyStr sig then
            s3.contentHistory ++ [({ t := now, h := sig } : Attempt)]
          else s3.contentHistory) ∧
      (commitRecord cfg now sig dec s3).lastDeniedAt = s3.lastDeniedAt) ∧
    (dec.allowed = false →
      (commitRecord cfg now sig dec s3).tokens = s3.tokens ∧
      (commitRecord cfg now sig dec s3).contentHistory = s3.contentHistory ∧
      (commitRecord cfg now sig dec s3).lastDeniedAt = some now) := by
  constructor <;> intro h <;>
    refine ⟨?_, ?_, ?_⟩ <;> simp [commitRecord, h]

/-- C7: every `record` call commits exactly one new attempt with the call's
timestamp regardless of the decision; allowed decisions additionally consume
one token (floored at zero, after refill) and append the fingerprint to the
duplicate-detection history; denied decisions leave tokens and content
history unchanged and only update the denial timestamp. -/
theorem record_commits_one_attempt (hashFn : String → String)
    (cfg : RouteRateConfig) (opts : StoreConfig) (dateNow : ℚ) (st : Store)
    (ctx : RateLimitContext) (dec : RateLimitDecision)
    (hw : 0 < cfg.sliding.windowMs) :
    RecordSpec hashFn cfg opts dateNow st ctx dec := by
  refine ⟨rfl, ?_, ?_, ?_, ?_⟩
  · exact (commitRecord_attempts cfg (nowMsOverride dateNow ctx.nowMs)
      (contentSig hashFn ctx) dec (maintainedFor hashFn cfg opts dateNow st ctx) hw).1
  · exact (commitRecord_attempts cfg (nowMsOverride dateNow ctx.nowMs)
      (contentSig hashFn ctx) dec (maintainedFor hashFn cfg opts dateNow st ctx) hw).2
  · exact (commitRecord_effects cfg (nowMsOverride dateNow ctx.nowMs)
      (contentSig hashFn ctx) dec (maintainedFor hashFn cfg opts dateNow st ctx)).1
  · exact (commitRecord_effects cfg (nowMsOverride dateNow ctx.nowMs)
      (contentSig hashFn ctx) dec (maintainedFor hashFn cfg opts dateNow st ctx)).2

/-- Witness for `record_commits_one_attempt` at a concrete call. -/
theorem record_commits_one_attempt_witness :
    0 < defaultRouteConfig.sliding.windowMs ∧
    RecordSpec idHash defaultRouteConfig defaultStoreConfig 0 emptyStore
      (scenarioCtx 7 "w2") deniedDecision :=
  ⟨by with_unfolding_all decide,
   record_commits_one_attempt idHash defaultRouteConfig defaultStoreConfig 0
     emptyStore (scenarioCtx 7 "w2") deniedDecision
     (by with_unfolding_all decide)⟩

/-! ### Association-list toolkit: the store behaves like a map -/

/-- `setEntry` leaves the key sequence unchanged. -/
theorem mapFst_setEntry (entries : List (String × State)) (k : String)
    (s : State) : (setEntry entries k s).map Prod.fst = entries.map Prod.fst := by
  unfold setEntry
  induction entries with
  | nil => rfl
  | cons e es ih =>
      simp only [List.map_cons, ih, List.cons.injEq, and_true]
      by_cases h : e.1 == k
      · have h1 : e.1 = k := by simpa using h
        simp [h, h1]
      · simp [h]

/-- `lookupEntry` on a cons whose head key matches. -/
theorem lookupEntry_cons_pos (e : String × State) (es : List (String × State))
    (k : String) (h : (e.1 == k) = true) :
    lookupEntry (e :: es) k = some e.2 := by
  unfold lookupEntry
  rw [show List.find? (fun x => x.1 == k) (e :: es) = some e from
    List.find?_cons_of_pos _ h]
  rfl

/-- `lookupEntry` on a cons whose head key differs. -/
theorem lookupEntry_cons_neg (e : String × State) (es : List (String × State))
    (k : String) (h : (e.1 == k) = false) :
    lookupEntry (e :: es) k = lookupEntry es k := by
  unfold lookupEntry
  rw [show List.find? (fun x => x.1 == k) (e :: es)
      = List.find? (fun x => x.1 == k) es from
    List.find?_cons_of_neg _ (by simp [h])]

/-- `setEntry` unfolds over a cons. -/
theorem setEntry_cons (e : String × State) (es : List (String × State))
    (k : String) (s : State) :
    setEntry (e :: es) k s = (if e.1 == k then (k, s) else e) :: setEntry es k s := rfl

/-- Looking up the written key after `setEntry`. -/
theorem lookupEntry_setEntry_self (entries : List (String × State))
    (k : String) (s : State) :
    lookupEntry (setEntry entries k s) k
      = (lookupEntry entries k).map (fun _ => s) := by
  induction entries with
  | nil => rfl
  | cons e es ih =>
      rw [setEntry_cons]
      by_cases h : e.1 == k
      · rw [if_pos h, lookupEntry_cons_pos _ _ _ (by simp),
            lookupEntry_cons_pos _ _ _ h]
        rfl
      · have hf : (e.1 == k) = false := by simpa using h
        rw [if_neg h, lookupEntry_cons_neg _ _ _ hf,
            lookupEntry_cons_neg _ _ _ hf, ih]

/-- Looking up a different key after `setEntry`. -/
theorem lookupEntry_setEntry_ne (entries : List (String × State))
    (k : String) (s : State) (k' : String) (h : k' ≠ k) :
    lookupEntry (setEntry entries k s) k' = lookupEntry entries k' := by
  induction entries with
  | nil => rfl
  | cons e es ih =>
      rw [setEntry_cons]
      by_cases he : e.1 == k
      · have h1 : e.1 = k := by simpa using he
        have h2 : ((k : String) == k') = false := by
          simpa using fun hh => h hh.symm
        have h3 : (e.1 == k') = false := by
          simpa [h1] using fun hh => h hh.symm
        rw [if_pos he, lookupEntry_cons_neg _ _ _ h2,
            lookupEntry_cons_neg _ _ _ h3, ih]
      · rw [if_neg he]
        by_cases he' : e.1 == k'
        · rw [lookupEntry_cons_pos _ _ _ he', lookupEntry_cons_pos _ _ _ he']
        · have hf : (e.1 == k') = false := by simpa using he'
          rw [lookupEntry_cons_neg _ _ _ hf, lookupEntry_cons_neg _ _ _ hf, ih]

/-- A successful lookup exhibits a binding in the list. -/
theorem lookupEntry_mem (entries : List (String × State)) (k : String)
    (s : State) (h : lookupEntry entries k = some s) : (k, s) ∈ entries := by
  induction entries with
  | nil => simp [lookupEntry] at h
  | cons e es ih =>
      by_cases h1 : e.1 == k
      · rw [lookupEntry_cons_pos _ _ _ h1] at h
        obtain ⟨a, b⟩ := e
        have h2 : a = k := by simpa using h1
        have h3 : b = s := by simpa using h
        subst h2; subst h3
        exact List.mem_cons_self _ _
      · have hf : (e.1 == k) = false := by simpa using h1
        rw [lookupEntry_cons_neg _ _ _ hf] at h
        exact List.mem_cons_of_mem _ (ih h)

/-- With distinct keys, a binding in the list is found by lookup. -/
theorem mem_lookupEntry (entries : List (String × State)) (k : String)
    (s : State) (hnd : (entries.map Prod.fst).Nodup)
    (h : (k, s) ∈ entries) : lookupEntry entries k = some s := by
  induction entries with
  | nil => simp at h
  | cons e es ih =>
      rw [List.map_cons, List.nodup_cons] at hnd
      rcases List.mem_cons.mp h with he | he
      · have h1 : (e.1 == k) = true := by simp [← he]
        rw [lookupEntry_cons_pos _ _ _ h1, ← he]
      · have h2 : (e.1 == k) = false := by
          by_contra hc
          have h3 : e.1 = k := by
            have := Bool.of_not_eq_false hc
            simpa using this
          exact hnd.1 (h3 ▸ List.mem_map.mpr ⟨(k, s), he, rfl⟩)
        rw [lookupEntry_cons_neg _ _ _ h2]
        exact ih hnd.2 he

/-- Lookup fails exactly when the key is absent. -/
theorem lookupEntry_eq_none (entries : List (String × State)) (k : String) :
    lookupEntry entries k = none ↔ k ∉ entries.map Prod.fst := by
  induction entries with
  | nil => simp [lookupEntry]
  | cons e es ih =>
      by_cases h1 : e.1 == k
      · have h2 : e.1 = k := by simpa using h1
        rw [lookupEntry_cons_pos _ _ _ h1]
        simp [h2]
      · have hf : (e.1 == k) = false := by simpa using h1
        have h2 : ¬ e.1 = k := by simpa using h1
        have h3 : ¬ k = e.1 := fun hh => h2 hh.symm
        rw [lookupEntry_cons_neg _ _ _ hf, ih]
        simp [List.map_cons, List.mem_cons, h3]

/-- A lookup in a sublist agrees with the full list when keys are distinct. -/
theorem lookupEntry_of_sublist (l1 l2 : List (String × State)) (k : String)
    (s : State) (hs : List.Sublist l1 l2) (hnd : (l2.map Prod.fst).Nodup)
    (h : lookupEntry l1 k = some s) : lookupEntry l2 k = some s :=
  mem_lookupEntry l2 k s hnd (hs.subset (lookupEntry_mem l1 k s h))

/-- `evictOldest` only removes entries. -/
theorem evictOldest_sublist (entries : List (String × State)) :
    List.Sublist (evictOldest entries) entries := by
  unfold evictOldest
  split
  · exact List.Sublist.refl _
  · split
    · exact List.Sublist.refl _
    · exact List.eraseP_sublist _

/-- The sweep only removes entries. -/
theorem sweepIfNeeded_sublist (opts : StoreConfig) (now : ℚ) (st : Store) :
    List.Sublist (sweepIfNeeded opts now st).entries st.entries := by
  unfold sweepIfNeeded
  split
  · exact List.Sublist.refl _
  · exact List.filter_sublist _

/-- `getOrCreate` preserves key distinctness. -/
theorem getOrCreate_goodStore (opts : StoreConfig) (cfg : RouteRateConfig)
    (key route : String) (now : ℚ) (st : Store) (hnd : goodStore st) :
    goodStore (getOrCreate opts cfg key route now st).2 := by
  unfold getOrCreate
  split
  · dsimp only
    exact List.Nodup.sublist
      (List.Sublist.map Prod.fst (sweepIfNeeded_sublist opts now _))
      (by rw [mapFst_setEntry]; exact hnd)
  · next hl =>
      have hl' : lookupEntry st.entries key = none := hl
      dsimp only
      refine List.Nodup.sublist
        (List.Sublist.map Prod.fst (sweepIfNeeded_sublist opts now _)) ?_
      rw [List.map_append]
      have hsub : List.Sublist
          (if opts.maxEntries ≤ (st.entries.length : ℚ) then
            evictOldest st.entries else st.entries) st.entries := by
        split
        · exact evictOldest_sublist _
        · exact List.Sublist.refl _
      have hnd1 : ((if opts.maxEntries ≤ (st.entries.length : ℚ) then
          evictOldest st.entries else st.entries).map Prod.fst).Nodup :=
        List.Nodup.sublist (List.Sublist.map Prod.fst hsub) hnd
      have hkey : key ∉ (st.entries.map Prod.fst) :=
        (lookupEntry_eq_none st.entries key).mp hl'
      have hkey1 : key ∉ ((if opts.maxEntries ≤ (st.entries.length : ℚ) then
          evictOldest st.entries else st.entries).map Prod.fst) :=
        fun hc => hkey ((List.Sublist.map Prod.fst hsub).subset hc)
      rw [List.nodup_append]
      exact ⟨hnd1, List.nodup_singleton _,
        fun a ha hb => by
          simp at hb
          exact hkey1 (hb ▸ ha)⟩

/-- A foreign key's binding after `getOrCreate` was already in the store. -/
theorem getOrCreate_lookup_ne (opts : StoreConfig) (cfg : RouteRateConfig)
    (key route : String) (now : ℚ) (st : Store) (hnd : goodStore st)
    (k : String) (hk : k ≠ key) (s : State)
    (h : lookupEntry (getOrCreate opts cfg key route now st).2.entries k = some s) :
    lookupEntry st.entries k = some s := by
  unfold getOrCreate at h
  split at h
  case _ s0 hl =>
      dsimp only at h
      have h1 : lookupEntry (setEntry st.entries key
          { s0 with lastSeen := now, expiresAt := now + opts.idleTtlMs }) k
          = some s := by
        refine lookupEntry_of_sublist _ _ _ _ (sweepIfNeeded_sublist opts now _) ?_ h
        rw [mapFst_setEntry]
        exact hnd
      rw [lookupEntry_setEntry_ne _ _ _ _ hk] at h1
      exact h1
  case _ hl =>
      have hl' : lookupEntry st.entries key = none := hl
      dsimp only at h
      set entries1 := (if opts.maxEntries ≤ (st.entries.length : ℚ) then
        evictOldest st.entries else st.entries) with he1
      have hsub : List.Sublist entries1 st.entries := by
        rw [he1]
        split
        · exact evictOldest_sublist _
        · exact List.Sublist.refl _
      have hkey : key ∉ (st.entries.map Prod.fst) :=
        (lookupEntry_eq_none st.entries key).mp hl'
      have hnd2 : ((entries1 ++ [((key,
          { key := key, route := route, tokens := cfg.bucket.capacity,
            lastRefill := now, attempts := [], contentHistory := [],
            lastSeen := now, expiresAt := now + opts.idleTtlMs,
            lastDeniedAt := none }) : String × State)]).map Prod.fst).Nodup := by
        rw [List.map_append, List.nodup_append]
        refine ⟨List.Nodup.sublist (List.Sublist.map Prod.fst hsub) hnd,
          List.nodup_singleton _, fun a ha hb => ?_⟩
        simp at hb
        exact (fun hc => hkey ((List.Sublist.map Prod.fst hsub).subset hc))
          (hb ▸ ha)
      have h1 := lookupEntry_of_sublist _ _ _ _
        (sweepIfNeeded_sublist opts now _) hnd2 h
      have h2 := lookupEntry_mem _ _ _ h1
      rcases List.mem_append.mp h2 with hm | hm
      · exact mem_lookupEntry _ _ _ hnd (hsub.subset hm)
      · simp at hm
        exact absurd hm.1 hk

/-- `refillTokens` is the identity when the clock did not advance. -/
theorem refillTokens_frozen (cfg : RouteRateConfig) (s : State) (now : ℚ)
    (h : now ≤ s.lastRefill) : refillTokens cfg s now = s := by
  unfold refillTokens
  rw [if_pos h]

/-- `refillTokens` never lowers the token count of an in-range bucket. -/
theorem refillTokens_tokens_mono (cfg : RouteRateConfig) (s : State) (now : ℚ)
    (hr : 0 ≤ cfg.bucket.refillPerSecond)
    (hcap : s.tokens ≤ cfg.bucket.capacity) :
    s.tokens ≤ (refillTokens cfg s now).tokens := by
  unfold refillTokens
  split
  · exact le_refl _
  · next h =>
      refine le_min hcap ?_
      have h1 : 0 < now - s.lastRefill := by
        have := not_le.mp h
        linarith
      nlinarith

/-- Maintenance never lowers the token count of an in-range bucket. -/
theorem maintainState_tokens_mono (cfg : RouteRateConfig) (s : State)
    (now : ℚ) (hr : 0 ≤ cfg.bucket.refillPerSecond)
    (hcap : s.tokens ≤ cfg.bucket.capacity) :
    s.tokens ≤ (maintainState cfg s now).tokens :=
  refillTokens_tokens_mono cfg
    (pruneContentHistory cfg (pruneWindow cfg s now) now) now hr hcap

/-- The decision phase never changes the token count. -/
theorem decisionOf_state_tokens (cfg : RouteRateConfig) (now : ℚ)
    (key : String) (sig : Option String) (s : State) :
    (decisionOf cfg now key sig s).2.tokens = s.tokens := by
  simp only [decisionOf]
  rw [apply_ite State.tokens]
  simp

/-- C10: refilling never decreases a key's token count. A frozen or backward
clock (`now ≤ lastRefill`) leaves the state untouched; an advancing clock
only adds tokens (capped at capacity); consequently `isAllowed` alone never
reduces the tokens of any key still present in the store. -/
theorem refill_never_decreases_tokens (hashFn : String → String)
    (cfg : RouteRateConfig) (opts : StoreConfig) (dateNow : ℚ) (st : Store)
    (ctx : RateLimitContext) (hg : goodStore st)
    (hr : 0 ≤ cfg.bucket.refillPerSecond)
    (hcap : ∀ k s, lookupEntry st.entries k = some s →
      s.tokens ≤ cfg.bucket.capacity) :
    (∀ (s : State) (now : ℚ), now ≤ s.lastRefill →
      refillTokens cfg s now = s) ∧
    (∀ (s : State) (now : ℚ), s.tokens ≤ cfg.bucket.capacity →
      s.tokens ≤ (refillTokens cfg s now).tokens) ∧
    (∀ (k : String) (s s' : State),
      lookupEntry st.entries k = some s →
      lookupEntry (isAllowed hashFn cfg opts dateNow st ctx).2.entries k
        = some s' →
      s.tokens ≤ s'.tokens) := by
  refine ⟨fun s now h => refillTokens_frozen cfg s now h,
    fun s now h => refillTokens_tokens_mono cfg s now hr h, ?_⟩
  intro k s s' h h'
  by_cases hk : k = compositeKey hashFn ctx.ip ctx.sessionId ctx.route
  · subst hk
    simp only [isAllowed] at h'
    rw [lookupEntry_setEntry_self] at h'
    rcases Option.map_eq_some'.mp h' with ⟨x, hx, hq⟩
    subst hq
    rw [decisionOf_state_tokens]
    simp only [getOrCreate, h]
    exact maintainState_tokens_mono cfg _ _ hr (hcap _ s h)
  · simp only [isAllowed] at h'
    rw [lookupEntry_setEntry_ne _ _ _ _ hk] at h'
    have h2 := getOrCreate_lookup_ne opts cfg
      (compositeKey hashFn ctx.ip ctx.sessionId ctx.route) ctx.route
      (nowMsOverride dateNow ctx.nowMs) st hg k hk s' h'
    rw [h] at h2
    cases h2
    exact le_refl _

/-- Witness for `refill_never_decreases_tokens` at a concrete store. -/
theorem refill_never_decreases_tokens_witness :
    (goodStore c5WitnessStore ∧
     0 ≤ defaultRouteConfig.bucket.refillPerSecond ∧
     (∀ k s, lookupEntry c5WitnessStore.entries k = some s →
       s.tokens ≤ defaultRouteConfig.bucket.capacity)) ∧
    ((∀ (s : State) (now : ℚ), now ≤ s.lastRefill →
       refillTokens defaultRouteConfig s now = s) ∧
     (∀ (s : State) (now : ℚ),
       s.tokens ≤ defaultRouteConfig.bucket.capacity →
       s.tokens ≤ (refillTokens defaultRouteConfig s now).tokens) ∧
     (∀ (k : String) (s s' : State),
       lookupEntry c5WitnessStore.entries k = some s →
       lookupEntry (isAllowed idHash defaultRouteConfig defaultStoreConfig 0
         c5WitnessStore (scenarioCtx 100 "w3")).2.entries k = some s' →
       s.tokens ≤ s'.tokens)) := by
  have hg : goodStore c5WitnessStore := by
    unfold goodStore
    with_unfolding_all decide
  have hr : (0:ℚ) ≤ defaultRouteConfig.bucket.refillPerSecond := by
    with_unfolding_all decide
  have hcap : ∀ k s, lookupEntry c5WitnessStore.entries k = some s →
      s.tokens ≤ defaultRouteConfig.bucket.capacity := by
    intro k s h
    have hm := lookupEntry_mem _ _ _ h
    have : (k, s) = (compositeKey idHash (some "ip") (some "s") "r",
        c5WitnessState) := List.mem_singleton.mp hm
    have hs : s = c5WitnessState := congrArg Prod.snd this
    subst hs
    with_unfolding_all decide
  exact ⟨⟨hg, hr, hcap⟩,
    refill_never_decreases_tokens idHash defaultRouteConfig defaultStoreConfig
      0 c5WitnessStore (scenarioCtx 100 "w3") hg hr hcap⟩

/-- Converting to whole seconds commutes with binary maxima. -/
theorem secs_max (a b : ℚ) : secs (Max.max a b) = Max.max (secs a) (secs b) := by
  unfold secs
  have h1 : Max.max a b / 1000 = Max.max (a / 1000) (b / 1000) := by
    rcases le_total a b with h | h
    · rw [max_eq_right h, max_eq_right (by gcongr : a / 1000 ≤ b / 1000)]
    · rw [max_eq_left h, max_eq_left (by gcongr : b / 1000 ≤ a / 1000)]
  rw [h1]
  exact Int.ceil_mono.map_max

/-- Converting to whole seconds commutes with a running maximum. -/
theorem secs_foldl_max (l : List ℚ) (a : ℚ) :
    secs (l.foldl Max.max a) = (l.map secs).foldl Max.max (secs a) := by
  induction l generalizing a with
  | nil => rfl
  | cons x xs ih =>
      rw [List.foldl_cons, List.map_cons, List.foldl_cons, ih, secs_max]

/-- Whole seconds of a zero wait. -/
theorem secs_zero : secs 0 = 0 := by
  unfold secs
  norm_num

/-- The decision's reason follows the fixed priority order. -/
theorem decisionOf_reason_eq (cfg : RouteRateConfig) (now : ℚ) (key : String)
    (sig : Option String) (s : State) :
    (decisionOf cfg now key sig s).1.reason = expectedReason cfg sig s now := by
  unfold decisionOf expectedReason
  cases hd : dupTrigB cfg sig s now <;>
    cases hr : rapidRetryFlag cfg s now <;>
      cases hs : spikeTrigB cfg s now <;>
        simp [hd, hr, hs] <;> split <;> rfl

/-- The decision's retry-after is the maximum of the per-condition estimates
in whole seconds, floored at one second, when denied; zero when allowed. -/
theorem decisionOf_retryAfter_eq (cfg : RouteRateConfig) (now : ℚ)
    (key : String) (sig : Option String) (s : State) :
    (decisionOf cfg now key sig s).1.retryAfter
      = (if (decisionOf cfg now key sig s).1.allowed then 0
         else Max.max 1 ((retrySecsList cfg sig s now).foldl Max.max 0)) := by
  unfold decisionOf retrySecsList
  dsimp only
  refine if_congr Iff.rfl rfl ?_
  rw [secs_foldl_max, secs_zero]

/-- C4 amended: when several denial conditions hold in one `isAllowed` call,
the reason is the first triggered heuristic in the fixed order
duplicate-burst, rapid-retries, multi-tab-spike (heuristics before plain
`rate_limited`), and `retryAfter` is the maximum of the per-condition retry
estimates in whole seconds, floored at one second — where the
duplicate-burst estimate is contributed only when its earliest matching
timestamp is truthy (present and nonzero). -/
theorem isAllowed_priority_and_max_retry (hashFn : String → String)
    (cfg : RouteRateConfig) (opts : StoreConfig) (dateNow : ℚ) (st : Store)
    (ctx : RateLimitContext) :
    (isAllowed hashFn cfg opts dateNow st ctx).1.reason
      = expectedReason cfg (contentSig hashFn ctx)
          (maintainedFor hashFn cfg opts dateNow st ctx)
          (nowMsOverride dateNow ctx.nowMs) ∧
    (isAllowed hashFn cfg opts dateNow st ctx).1.retryAfter
      = (if (isAllowed hashFn cfg opts dateNow st ctx).1.allowed then 0
         else Max.max 1 ((retrySecsList cfg (contentSig hashFn ctx)
             (maintainedFor hashFn cfg opts dateNow st ctx)
             (nowMsOverride dateNow ctx.nowMs)).foldl Max.max 0)) :=
  ⟨decisionOf_reason_eq cfg (nowMsOverride dateNow ctx.nowMs)
      (ctxKey hashFn ctx) (contentSig hashFn ctx)
      (maintainedFor hashFn cfg opts dateNow st ctx),
   decisionOf_retryAfter_eq cfg (nowMsOverride dateNow ctx.nowMs)
      (ctxKey hashFn ctx) (contentSig hashFn ctx)
      (maintainedFor hashFn cfg opts dateNow st ctx)⟩

/-- C4 counterexample: at the third identical-content call (threshold 2) the
duplicate-burst heuristic is triggered and its estimate is 10 whole seconds,
yet the returned `retryAfter` is 1: the earliest matching timestamp is 0,
which the source's truthiness guard `if (dup.earliestTs)` drops, so the
returned value is NOT the maximum over all triggered conditions' estimates. -/
theorem retryAfter_drops_zero_timestamp_estimate :
    dupTrigB dupThreshold2Cfg (some "x") c4state3 2 = true ∧
    (countDuplicate c4state3 (some "x") 2
      dupThreshold2Cfg.heuristics.duplicateWindowMs).2 = some 0 ∧
    secs (dupThreshold2Cfg.heuristics.duplicateWindowMs - ((2 : ℚ) - 0)) = 10 ∧
    c4decision3.reason = AbuseReason.duplicate_burst ∧
    c4decision3.retryAfter = 1 ∧ (1 : ℤ) < 10 := by
  with_unfolding_all decide

/-- A finite value clamped from below meets the bound. -/
theorem jsLe_num_jsMax (m : ℚ) (x : JsNum) (h : isFiniteJs x = true) :
    jsLe (JsNum.num m) (jsMax (JsNum.num m) x) = true := by
  cases x <;> simp [isFiniteJs] at h <;> simp [jsMax, jsLe, le_max_left]

/-- Clamping a finite value from below stays finite. -/
theorem isFiniteJs_jsMax (m : ℚ) (x : JsNum) (h : isFiniteJs x = true) :
    isFiniteJs (jsMax (JsNum.num m) x) = true := by
  cases x <;> simp [isFiniteJs] at h ⊢ <;> simp [jsMax, isFiniteJs]

/-- A supplied-or-defaulted leaf of finite inputs is finite. -/
theorem finiteJs_getD (x : Option JsNum) (b : JsNum)
    (hx : finiteOrAbsent x = true) (hb : isFiniteJs b = true) :
    isFiniteJs (x.getD b) = true := by
  cases x with
  | none => simpa using hb
  | some v => simpa [finiteOrAbsent] using hx

/-- Merging a finite override over a finite base yields a config that is
finite and meets all nine minimums. -/
theorem mergeRouteConfig_finite_clamps (base : JsRouteConfig)
    (o : JsPartialRouteConfig) (hb : allFiniteCfg base = true)
    (ho : allFinitePartial o = true) :
    allFiniteCfg (mergeRouteConfig base (some o)) = true ∧
    meetsMinimums (mergeRouteConfig base (some o)) = true := by
  simp only [allFiniteCfg, Bool.and_eq_true] at hb
  simp only [allFinitePartial, Bool.and_eq_true] at ho
  obtain ⟨⟨⟨⟨⟨⟨⟨⟨hb1, hb2⟩, hb3⟩, hb4⟩, hb5⟩, hb6⟩, hb7⟩, hb8⟩, hb9⟩ := hb
  obtain ⟨⟨⟨⟨⟨⟨⟨⟨ho1, ho2⟩, ho3⟩, ho4⟩, ho5⟩, ho6⟩, ho7⟩, ho8⟩, ho9⟩ := ho
  constructor
  · simp only [mergeRouteConfig, allFiniteCfg, Bool.and_eq_true]
    exact ⟨⟨⟨⟨⟨⟨⟨⟨isFiniteJs_jsMax _ _ (finiteJs_getD _ _ ho1 hb1),
      isFiniteJs_jsMax _ _ (finiteJs_getD _ _ ho2 hb2)⟩,
      isFiniteJs_jsMax _ _ (finiteJs_getD _ _ ho3 hb3)⟩,
      isFiniteJs_jsMax _ _ (finiteJs_getD _ _ ho4 hb4)⟩,
      isFiniteJs_jsMax _ _ (finiteJs_getD _ _ ho5 hb5)⟩,
      isFiniteJs_jsMax _ _ (finiteJs_getD _ _ ho6 hb6)⟩,
      isFiniteJs_jsMax _ _ (finiteJs_getD _ _ ho7 hb7)⟩,
      isFiniteJs_jsMax _ _ (finiteJs_getD _ _ ho8 hb8)⟩,
      isFiniteJs_jsMax _ _ (finiteJs_getD _ _ ho9 hb9)⟩
  · simp only [mergeRouteConfig, meetsMinimums, Bool.and_eq_true]
    exact ⟨⟨⟨⟨⟨⟨⟨⟨jsLe_num_jsMax _ _ (finiteJs_getD _ _ ho1 hb1),
      jsLe_num_jsMax _ _ (finiteJs_getD _ _ ho2 hb2)⟩,
      jsLe_num_jsMax _ _ (finiteJs_getD _ _ ho3 hb3)⟩,
      jsLe_num_jsMax _ _ (finiteJs_getD _ _ ho4 hb4)⟩,
      jsLe_num_jsMax _ _ (finiteJs_getD _ _ ho5 hb5)⟩,
      jsLe_num_jsMax _ _ (finiteJs_getD _ _ ho6 hb6)⟩,
      jsLe_num_jsMax _ _ (finiteJs_getD _ _ ho7 hb7)⟩,
      jsLe_num_jsMax _ _ (finiteJs_getD _ _ ho8 hb8)⟩,
      jsLe_num_jsMax _ _ (finiteJs_getD _ _ ho9 hb9)⟩

/-- C9 counterexample: a per-route override supplying `windowMs = NaN`
reaches the effective configuration unreplaced — `Math.max(1000, NaN)` is
`NaN` — and the effective `windowMs` fails the stated minimum
`windowMs ≥ 1000` (every comparison against `NaN` is false). -/
theorem nan_override_not_clamped :
    (effectiveRouteConfig none (some nanWindowOverride)).windowMs
      = JsNum.nan ∧
    jsLe (JsNum.num 1000)
      (effectiveRouteConfig none (some nanWindowOverride)).windowMs = false ∧
    meetsMinimums (effectiveRouteConfig none (some nanWindowOverride))
      = false := by
  with_unfolding_all decide

/-- C9 amended: for every configuration whose supplied numeric values are
finite, the effective route configuration meets all nine stated positive
minimums (finite out-of-range values are raised to the minimums); non-finite
values, however, are not replaced: `NaN` propagates through `Math.max` into
the effective configuration. -/
theorem finite_config_meets_minimums (cfgDefaults routeOverride :
    Option JsPartialRouteConfig)
    (h1 : ∀ o ∈ cfgDefaults, allFinitePartial o = true)
    (h2 : ∀ o ∈ routeOverride, allFinitePartial o = true) :
    meetsMinimums (effectiveRouteConfig cfgDefaults routeOverride) = true := by
  have hdef : allFiniteCfg jsDefaults = true := by with_unfolding_all decide
  have hmin : meetsMinimums jsDefaults = true := by with_unfolding_all decide
  have hcd : allFiniteCfg (constructedDefaults cfgDefaults) = true ∧
      meetsMinimums (constructedDefaults cfgDefaults) = true := by
    cases cfgDefaults with
    | none => exact ⟨hdef, hmin⟩
    | some o =>
        exact ⟨(mergeRouteConfig_finite_clamps jsDefaults o hdef
            (h1 o rfl)).1,
          (mergeRouteConfig_finite_clamps jsDefaults o hdef (h1 o rfl)).2⟩
  cases routeOverride with
  | none => exact hcd.2
  | some r =>
      exact (mergeRouteConfig_finite_clamps _ r hcd.1 (h2 r rfl)).2

/-- Witness for `finite_config_meets_minimums`: a finite but out-of-range
construction-time override. -/
theorem finite_config_meets_minimums_witness :
    ((∀ o ∈ some ({ capacity := some (JsNum.num (-5)) } :
        JsPartialRouteConfig), allFinitePartial o = true) ∧
     (∀ o ∈ (none : Option JsPartialRouteConfig),
        allFinitePartial o = true)) ∧
    meetsMinimums (effectiveRouteConfig
      (some ({ capacity := some (JsNum.num (-5)) } : JsPartialRouteConfig))
      none) = true := by
  refine ⟨⟨?_, ?_⟩, ?_⟩
  · intro o ho
    cases ho
    with_unfolding_all decide
  · intro o ho
    cases ho
  · exact finite_config_meets_minimums
      (some ({ capacity := some (JsNum.num (-5)) } : JsPartialRouteConfig))
      none
      (by intro o ho; cases ho; with_unfolding_all decide)
      (by intro o ho; cases ho)

/-- Refilling keeps the tokens inside `[0, capacity]`. -/
theorem refillTokens_bounds (cfg : RouteRateConfig) (s : State) (now : ℚ)
    (hr : 0 ≤ cfg.bucket.refillPerSecond) (hc : 0 ≤ cfg.bucket.capacity)
    (h0 : 0 ≤ s.tokens) (h1 : s.tokens ≤ cfg.bucket.capacity) :
    0 ≤ (refillTokens cfg s now).tokens ∧
    (refillTokens cfg s now).tokens ≤ cfg.bucket.capacity := by
  unfold refillTokens
  split
  · exact ⟨h0, h1⟩
  · next h =>
      refine ⟨le_min hc ?_, min_le_left _ _⟩
      have h2 : 0 < now - s.lastRefill := by
        have := not_le.mp h
        linarith
      nlinarith

/-- Maintenance keeps the tokens inside `[0, capacity]`. -/
theorem maintainState_bounds (cfg : RouteRateConfig) (s : State) (now : ℚ)
    (hr : 0 ≤ cfg.bucket.refillPerSecond) (hc : 0 ≤ cfg.bucket.capacity)
    (h0 : 0 ≤ s.tokens) (h1 : s.tokens ≤ cfg.bucket.capacity) :
    0 ≤ (maintainState cfg s now).tokens ∧
    (maintainState cfg s now).tokens ≤ cfg.bucket.capacity :=
  refillTokens_bounds cfg
    (pruneContentHistory cfg (pruneWindow cfg s now) now) now hr hc h0 h1

/-- Committing a record keeps the tokens inside `[0, capacity]`. -/
theorem commitRecord_tokens_bounds (cfg : RouteRateConfig) (now : ℚ)
    (sig : Option String) (dec : RateLimitDecision) (s3 : State)
    (hc : 0 ≤ cfg.bucket.capacity) (h0 : 0 ≤ s3.tokens)
    (h1 : s3.tokens ≤ cfg.bucket.capacity) :
    0 ≤ (commitRecord cfg now sig dec s3).tokens ∧
    (commitRecord cfg now sig dec s3).tokens ≤ cfg.bucket.capacity := by
  rcases commitRecord_effects cfg now sig dec s3 with ⟨hA, hD⟩
  cases hd : dec.allowed
  · rw [(hD hd).1]
    exact ⟨h0, h1⟩
  · rw [(hA hd).1]
    exact ⟨le_max_left _ _, max_le hc (by linarith)⟩

/-- Membership after `setEntry`: the new binding or an old one. -/
theorem mem_setEntry (entries : List (String × State)) (k : String)
    (s : State) (e : String × State) (he : e ∈ setEntry entries k s) :
    e = (k, s) ∨ e ∈ entries := by
  unfold setEntry at he
  rcases List.mem_map.mp he with ⟨e0, he0, heq⟩
  by_cases h : e0.1 == k
  · rw [if_pos h] at heq
    exact Or.inl heq.symm
  · rw [if_neg h] at heq
    exact Or.inr (heq ▸ he0)

/-- `getOrCreate` preserves the token invariant, and the state it returns
is in range. -/
theorem getOrCreate_tokensInv (opts : StoreConfig) (cfg : RouteRateConfig)
    (key route : String) (now : ℚ) (st : Store)
    (hc : 0 ≤ cfg.bucket.capacity) (hinv : tokensInv cfg st) :
    tokensInv cfg (getOrCreate opts cfg key route now st).2 ∧
    (0 ≤ (getOrCreate opts cfg key route now st).1.tokens ∧
     (getOrCreate opts cfg key route now st).1.tokens
       ≤ cfg.bucket.capacity) := by
  unfold getOrCreate
  split
  · next s0 hl =>
      dsimp only
      have hs0 := hinv _ (lookupEntry_mem _ _ _ hl)
      constructor
      · intro e he
        have he1 := (sweepIfNeeded_sublist opts now _).subset he
        rcases mem_setEntry _ _ _ _ he1 with rfl | he2
        · exact hs0
        · exact hinv _ he2
      · exact hs0
  · next hl =>
      dsimp only
      constructor
      · intro e he
        have he1 := (sweepIfNeeded_sublist opts now _).subset he
        rcases List.mem_append.mp he1 with he2 | he2
        · have : e ∈ st.entries := by
            revert he2
            split
            · exact fun hh => (evictOldest_sublist _).subset hh
            · exact fun hh => hh
          exact hinv _ this
        · rcases List.mem_singleton.mp he2 with rfl
          exact ⟨hc, le_refl _⟩
      · exact ⟨hc, le_refl _⟩

/-- One call of either kind preserves the token invariant. -/
theorem step_tokensInv (hashFn : String → String) (cfg : RouteRateConfig)
    (opts : StoreConfig) (hr : 0 ≤ cfg.bucket.refillPerSecond)
    (hc : 0 ≤ cfg.bucket.capacity) (st : Store) (op : Op)
    (hinv : tokensInv cfg st) :
    tokensInv cfg (step hashFn cfg opts st op) := by
  cases op with
  | isAllowedOp dn ctx =>
      intro e he
      simp only [step, isAllowed] at he
      rcases mem_setEntry _ _ _ _ he with rfl | he2
      · rcases getOrCreate_tokensInv opts cfg
            (compositeKey hashFn ctx.ip ctx.sessionId ctx.route) ctx.route
            (nowMsOverride dn ctx.nowMs) st hc hinv with ⟨_, hp0, hp1⟩
        have hb := maintainState_bounds cfg _ (nowMsOverride dn ctx.nowMs)
          hr hc hp0 hp1
        simpa [decisionOf_state_tokens] using hb
      · exact (getOrCreate_tokensInv opts cfg _ ctx.route
          (nowMsOverride dn ctx.nowMs) st hc hinv).1 _ he2
  | recordOp dn ctx dec =>
      intro e he
      simp only [step, record] at he
      rcases mem_setEntry _ _ _ _ he with rfl | he2
      · rcases getOrCreate_tokensInv opts cfg
            (compositeKey hashFn ctx.ip ctx.sessionId ctx.route) ctx.route
            (nowMsOverride dn ctx.nowMs) st hc hinv with ⟨_, hp0, hp1⟩
        have hb := maintainState_bounds cfg _ (nowMsOverride dn ctx.nowMs)
          hr hc hp0 hp1
        exact commitRecord_tokens_bounds cfg _ _ dec _ hc hb.1 hb.2
      · exact (getOrCreate_tokensInv opts cfg _ ctx.route
          (nowMsOverride dn ctx.nowMs) st hc hinv).1 _ he2

/-- C1: over every finite sequence of `isAllowed` and `record` calls under a
fixed route configuration with nonnegative capacity and refill rate, every
key state's token count stays within `[0, capacity]` (states start at
capacity, refills cap at capacity, consumption floors at zero). -/
theorem tokens_within_capacity (hashFn : String → String)
    (cfg : RouteRateConfig) (opts : StoreConfig)
    (hr : 0 ≤ cfg.bucket.refillPerSecond)
    (hc : 0 ≤ cfg.bucket.capacity) (ops : List Op) :
    ∀ e ∈ (run hashFn cfg opts emptyStore ops).entries,
      0 ≤ e.2.tokens ∧ e.2.tokens ≤ cfg.bucket.capacity := by
  suffices h : ∀ (st : Store), tokensInv cfg st →
      tokensInv cfg (run hashFn cfg opts st ops) by
    exact h emptyStore (fun e he => absurd he (List.not_mem_nil e))
  induction ops with
  | nil => exact fun st h => h
  | cons op ops ih =>
      intro st h
      exact ih _ (step_tokensInv hashFn cfg opts hr hc st op h)

/-- Witness for `tokens_within_capacity` at a concrete call sequence. -/
theorem tokens_within_capacity_witness :
    (0 ≤ defaultRouteConfig.bucket.refillPerSecond ∧
     0 ≤ defaultRouteConfig.bucket.capacity) ∧
    (∀ e ∈ (run idHash defaultRouteConfig defaultStoreConfig emptyStore
        [Op.isAllowedOp 0 (scenarioCtx 5 "a"),
         Op.recordOp 0 (scenarioCtx 5 "a") deniedDecision]).entries,
      0 ≤ e.2.tokens ∧ e.2.tokens ≤ defaultRouteConfig.bucket.capacity) :=
  ⟨⟨by with_unfolding_all decide, by with_unfolding_all decide⟩,
   tokens_within_capacity idHash defaultRouteConfig defaultStoreConfig
     (by with_unfolding_all decide) (by with_unfolding_all decide)
     [Op.isAllowedOp 0 (scenarioCtx 5 "a"),
      Op.recordOp 0 (scenarioCtx 5 "a") deniedDecision]⟩

/-- The scan's accumulator always holds a first-minimal `lastSeen`. -/
theorem oldestStep_foldl_spec (es : List (String × State)) :
    ∀ (k0 : String) (m0 : ℚ),
      ∃ k m, es.foldl oldestStep (some (k0, m0)) = some (k, m) ∧
        ((k = k0 ∧ m = m0) ∨ ∃ e ∈ es, e.1 = k ∧ e.2.lastSeen = m) ∧
        m ≤ m0 ∧ ∀ e ∈ es, m ≤ e.2.lastSeen := by
  induction es with
  | nil =>
      intro k0 m0
      exact ⟨k0, m0, rfl, Or.inl ⟨rfl, rfl⟩, le_refl _, by simp⟩
  | cons e es ih =>
      intro k0 m0
      rw [List.foldl_cons]
      by_cases hlt : e.2.lastSeen < m0
      · rw [show oldestStep (some (k0, m0)) e = some (e.1, e.2.lastSeen) by
          simp [oldestStep, hlt]]
        obtain ⟨k, m, hfold, hmem, hle, hmin⟩ := ih e.1 e.2.lastSeen
        refine ⟨k, m, hfold, ?_, le_of_lt (lt_of_le_of_lt hle hlt), ?_⟩
        · rcases hmem with ⟨hk, hm⟩ | ⟨e', he', hk, hm⟩
          · exact Or.inr ⟨e, List.mem_cons_self _ _, hk.symm ▸ rfl, hm.symm ▸ rfl⟩
          · exact Or.inr ⟨e', List.mem_cons_of_mem _ he', hk, hm⟩
        · intro e' he'
          rcases List.mem_cons.mp he' with rfl | he2
          · exact hle
          · exact hmin e' he2
      · rw [show oldestStep (some (k0, m0)) e = some (k0, m0) by
          simp [oldestStep, hlt]]
        obtain ⟨k, m, hfold, hmem, hle, hmin⟩ := ih k0 m0
        refine ⟨k, m, hfold, ?_, hle, ?_⟩
        · rcases hmem with ⟨hk, hm⟩ | ⟨e', he', hk, hm⟩
          · exact Or.inl ⟨hk, hm⟩
          · exact Or.inr ⟨e', List.mem_cons_of_mem _ he', hk, hm⟩
        · intro e' he'
          rcases List.mem_cons.mp he' with rfl | he2
          · exact le_trans hle (not_lt.mp hlt)
          · exact hmin e' he2

/-- On a nonempty list the scan returns a key of an entry whose `lastSeen`
is minimal. -/
theorem findOldest_spec (entries : List (String × State))
    (h : entries ≠ []) :
    ∃ k m, findOldest entries = some (k, m) ∧
      (∃ e ∈ entries, e.1 = k ∧ e.2.lastSeen = m) ∧
      ∀ e ∈ entries, m ≤ e.2.lastSeen := by
  cases entries with
  | nil => exact absurd rfl h
  | cons e es =>
      unfold findOldest
      rw [List.foldl_cons,
        show oldestStep none e = some (e.1, e.2.lastSeen) from rfl]
      obtain ⟨k, m, hfold, hmem, hle, hmin⟩ := oldestStep_foldl_spec es e.1 e.2.lastSeen
      refine ⟨k, m, hfold, ?_, ?_⟩
      · rcases hmem with ⟨hk, hm⟩ | ⟨e', he', hk, hm⟩
        · exact ⟨e, List.mem_cons_self _ _, hk.symm ▸ rfl, hm.symm ▸ rfl⟩
        · exact ⟨e', List.mem_cons_of_mem _ he', hk, hm⟩
      · intro e' he'
        rcases List.mem_cons.mp he' with rfl | he2
        · exact hle
        · exact hmin e' he2

/-- On a nonempty list with truthy keys, eviction removes exactly one entry,
one whose `lastSeen` is minimal. -/
theorem evictOldest_removes (entries : List (String × State))
    (hne : entries ≠ [])
    (hkeys : ∀ k ∈ entries.map Prod.fst, k ≠ "") :
    ∃ k m, findOldest entries = some (k, m) ∧
      (∃ e ∈ entries, e.1 = k ∧ e.2.lastSeen = m) ∧
      (∀ e ∈ entries, m ≤ e.2.lastSeen) ∧
      evictOldest entries = entries.eraseP (fun e => e.1 == k) ∧
      (evictOldest entries).length = entries.length - 1 := by
  obtain ⟨k, m, hfind, ⟨e, he, hk, hm⟩, hmin⟩ := findOldest_spec entries hne
  have hkne : k ≠ "" := hk ▸ hkeys e.1 (List.mem_map.mpr ⟨e, he, rfl⟩)
  have hev : evictOldest entries = entries.eraseP (fun e => e.1 == k) := by
    unfold evictOldest
    rw [hfind]
    dsimp only
    rw [if_neg hkne]
  refine ⟨k, m, hfind, ⟨e, he, hk, hm⟩, hmin, hev, ?_⟩
  rw [hev]
  exact List.length_eraseP_of_mem he (by simp [hk])

/-- `getOrCreate` preserves the C8 store invariant. -/
theorem getOrCreate_sizeInv (opts : StoreConfig) (cfg : RouteRateConfig)
    (key route : String) (now : ℚ) (st : Store) (m : ℕ)
    (hopt : opts.maxEntries = (m : ℚ)) (hm : 1 ≤ m) (hkey : key ≠ "")
    (h : sizeInv m st) :
    sizeInv m (getOrCreate opts cfg key route now st).2 := by
  obtain ⟨hg, hk, hlen⟩ := h
  have hkeys_len :
      (∀ k' ∈ (getOrCreate opts cfg key route now st).2.entries.map Prod.fst,
        k' ≠ "") ∧
      (getOrCreate opts cfg key route now st).2.entries.length ≤ m := by
    unfold getOrCreate
    split
    · next s0 hl =>
        dsimp only
        constructor
        · intro k' hk'
          have h1 := (List.Sublist.map Prod.fst
            (sweepIfNeeded_sublist opts now _)).subset hk'
          rw [mapFst_setEntry] at h1
          exact hk k' h1
        · refine le_trans
            (List.Sublist.length_le (sweepIfNeeded_sublist opts now _)) ?_
          unfold setEntry
          rw [List.length_map]
          exact hlen
    · next hl =>
        have hl' : lookupEntry st.entries key = none := hl
        dsimp only
        have hsub : List.Sublist
            (if opts.maxEntries ≤ (st.entries.length : ℚ) then
              evictOldest st.entries else st.entries) st.entries := by
          split
          · exact evictOldest_sublist _
          · exact List.Sublist.refl _
        constructor
        · intro k' hk'
          have h1 := (List.Sublist.map Prod.fst
            (sweepIfNeeded_sublist opts now _)).subset hk'
          rw [List.map_append] at h1
          rcases List.mem_append.mp h1 with h2 | h2
          · exact hk k' ((List.Sublist.map Prod.fst hsub).subset h2)
          · simp at h2
            rw [h2]
            exact hkey
        · refine le_trans
            (List.Sublist.length_le (sweepIfNeeded_sublist opts now _)) ?_
          rw [List.length_append]
          by_cases hc : opts.maxEntries ≤ (st.entries.length : ℚ)
          · rw [if_pos hc]
            have hmle : m ≤ st.entries.length := by
              rw [hopt] at hc
              exact_mod_cast hc
            have hEq : st.entries.length = m := le_antisymm hlen hmle
            have hne : st.entries ≠ [] := by
              intro hnil
              rw [hnil] at hEq
              simp at hEq
              omega
            obtain ⟨k1, m1, _, _, _, _, hlen1⟩ :=
              evictOldest_removes st.entries hne hk
            rw [hlen1, hEq]
            simp
            omega
          · rw [if_neg hc]
            have h3 : ¬ (m ≤ st.entries.length) := by
              rw [hopt] at hc
              intro hh
              exact hc (by exact_mod_cast hh)
            simp
            omega
  exact ⟨getOrCreate_goodStore opts cfg key route now st hg,
    hkeys_len.1, hkeys_len.2⟩

/-- One call of either kind preserves the C8 store invariant. -/
theorem step_sizeInv (hashFn : String → String) (cfg : RouteRateConfig)
    (opts : StoreConfig) (m : ℕ) (hopt : opts.maxEntries = (m : ℚ))
    (hm : 1 ≤ m) (hhash : ∀ x, hashFn x ≠ "") (st : Store) (op : Op)
    (h : sizeInv m st) : sizeInv m (step hashFn cfg opts st op) := by
  cases op with
  | isAllowedOp dn ctx =>
      have hp := getOrCreate_sizeInv opts cfg
        (compositeKey hashFn ctx.ip ctx.sessionId ctx.route) ctx.route
        (nowMsOverride dn ctx.nowMs) st m hopt hm (hhash _) h
      obtain ⟨hg1, hk1, hl1⟩ := hp
      refine ⟨?_, ?_, ?_⟩
      · show ((setEntry _ _ _).map Prod.fst).Nodup
        rw [mapFst_setEntry]
        exact hg1
      · show ∀ k' ∈ (setEntry _ _ _).map Prod.fst, k' ≠ ""
        rw [mapFst_setEntry]
        exact hk1
      · show (setEntry _ _ _).length ≤ m
        unfold setEntry
        rw [List.length_map]
        exact hl1
  | recordOp dn ctx dec =>
      have hp := getOrCreate_sizeInv opts cfg
        (compositeKey hashFn ctx.ip ctx.sessionId ctx.route) ctx.route
        (nowMsOverride dn ctx.nowMs) st m hopt hm (hhash _) h
      obtain ⟨hg1, hk1, hl1⟩ := hp
      refine ⟨?_, ?_, ?_⟩
      · show ((setEntry _ _ _).map Prod.fst).Nodup
        rw [mapFst_setEntry]
        exact hg1
      · show ∀ k' ∈ (setEntry _ _ _).map Prod.fst, k' ≠ ""
        rw [mapFst_setEntry]
        exact hk1
      · show (setEntry _ _ _).length ≤ m
        unfold setEntry
        rw [List.length_map]
        exact hl1

/-- C8: for every finite sequence of `isAllowed`/`record` calls over any
identities, a store capped at `maxEntries = m ≥ 1` never holds more than `m`
entries; and on any nonempty store with truthy keys, eviction removes
exactly the first entry whose `lastSeen` is minimal. -/
theorem store_never_exceeds_maxEntries (hashFn : String → String)
    (cfg : RouteRateConfig) (opts : StoreConfig) (m : ℕ) (hm : 1 ≤ m)
    (hopt : opts.maxEntries = (m : ℚ)) (hhash : ∀ x, hashFn x ≠ "")
    (ops : List Op) :
    (run hashFn cfg opts emptyStore ops).entries.length ≤ m ∧
    (∀ entries, entries ≠ [] →
      (∀ k ∈ entries.map Prod.fst, k ≠ "") →
      ∃ k mm, findOldest entries = some (k, mm) ∧
        (∃ e ∈ entries, e.1 = k ∧ e.2.lastSeen = mm) ∧
        (∀ e ∈ entries, mm ≤ e.2.lastSeen) ∧
        evictOldest entries = entries.eraseP (fun e => e.1 == k)) := by
  constructor
  · have hrun : ∀ st, sizeInv m st → sizeInv m (run hashFn cfg opts st ops) := by
      induction ops with
      | nil => exact fun st h => h
      | cons op ops ih =>
          intro st h
          exact ih _ (step_sizeInv hashFn cfg opts m hopt hm hhash st op h)
    have h0 : sizeInv m emptyStore := by
      refine ⟨?_, ?_, ?_⟩
      · exact List.nodup_nil
      · intro k hk
        simp [emptyStore] at hk
      · simp [emptyStore]
    exact (hrun emptyStore h0).2.2
  · intro entries hne hkeys
    obtain ⟨k, mm, h1, h2, h3, h4, _⟩ := evictOldest_removes entries hne hkeys
    exact ⟨k, mm, h1, h2, h3, h4⟩

/-- `nzHash` never produces the falsy empty key. -/
theorem nzHash_ne_empty : ∀ x, nzHash x ≠ "" := by
  intro x h
  have h2 := congrArg String.length h
  simp [nzHash, String.length_append] at h2
  exact absurd h2.1 (by decide)

/-- Witness for `store_never_exceeds_maxEntries`: two distinct identities
against a store capped at one entry. -/
theorem store_never_exceeds_maxEntries_witness :
    (1 ≤ 1 ∧ oneEntryStoreConfig.maxEntries = ((1 : ℕ) : ℚ) ∧
     (∀ x, nzHash x ≠ "")) ∧
    ((run nzHash defaultRouteConfig oneEntryStoreConfig emptyStore
        [Op.isAllowedOp 0 { route := "r", ip := some "a", nowMs := some 5 },
         Op.isAllowedOp 0 { route := "r", ip := some "b", nowMs := some 6 }]
      ).entries.length ≤ 1 ∧
     (∀ entries, entries ≠ [] →
       (∀ k ∈ entries.map Prod.fst, k ≠ "") →
       ∃ k mm, findOldest entries = some (k, mm) ∧
         (∃ e ∈ entries, e.1 = k ∧ e.2.lastSeen = mm) ∧
         (∀ e ∈ entries, mm ≤ e.2.lastSeen) ∧
         evictOldest entries = entries.eraseP (fun e => e.1 == k))) :=
  ⟨⟨le_refl 1, by norm_num [oneEntryStoreConfig], nzHash_ne_empty⟩,
   store_never_exceeds_maxEntries nzHash defaultRouteConfig
     oneEntryStoreConfig 1 (le_refl 1) (by norm_num [oneEntryStoreConfig])
     nzHash_ne_empty
     [Op.isAllowedOp 0 { route := "r", ip := some "a", nowMs := some 5 },
      Op.isAllowedOp 0 { route := "r", ip := some "b", nowMs := some 6 }]⟩

/-- `dropWhile` is idempotent. -/
theorem dropWhile_idem {α : Type} (p : α → Bool) (l : List α) :
    (l.dropWhile p).dropWhile p = l.dropWhile p := by
  induction l with
  | nil => rfl
  | cons a l ih =>
      by_cases h : p a
      · rw [List.dropWhile_cons_of_pos h, ih]
      · rw [List.dropWhile_cons_of_neg h, List.dropWhile_cons_of_neg h]

/-- A surviving binding is still found after a filter. -/
theorem lookupEntry_filter_of_pred (p : String × State → Bool)
    (entries : List (String × State)) (k : String) (s : State)
    (hnd : (entries.map Prod.fst).Nodup)
    (h : lookupEntry entries k = some s) (hp : p (k, s) = true) :
    lookupEntry (entries.filter p) k = some s :=
  mem_lookupEntry _ _ _
    (List.Nodup.sublist (List.Sublist.map Prod.fst (List.filter_sublist _)) hnd)
    (List.mem_filter.mpr ⟨lookupEntry_mem _ _ _ h, hp⟩)

/-- On a found key `getOrCreate` returns the refreshed stored state. -/
theorem getOrCreate_found_state (opts : StoreConfig) (cfg : RouteRateConfig)
    (key route : String) (now : ℚ) (st : Store) (s0 : State)
    (h : lookupEntry st.entries key = some s0) :
    (getOrCreate opts cfg key route now st).1
      = { s0 with lastSeen := now, expiresAt := now + opts.idleTtlMs } := by
  simp only [getOrCreate, h]

/-- The state `getOrCreate` hands back is stamped with the current call. -/
theorem getOrCreate_state_now (opts : StoreConfig) (cfg : RouteRateConfig)
    (key route : String) (now : ℚ) (st : Store) :
    (getOrCreate opts cfg key route now st).1.lastSeen = now ∧
    (getOrCreate opts cfg key route now st).1.expiresAt
      = now + opts.idleTtlMs := by
  unfold getOrCreate
  split <;> exact ⟨rfl, rfl⟩

/-- The handed-back state's content history is bounded when the stored one
is. -/
theorem getOrCreate_contentHistory_bound (opts : StoreConfig)
    (cfg : RouteRateConfig) (key route : String) (now : ℚ) (st : Store)
    (h : ∀ s0, lookupEntry st.entries key = some s0 →
      s0.contentHistory.length ≤ 1000) :
    (getOrCreate opts cfg key route now st).1.contentHistory.length
      ≤ 1000 := by
  unfold getOrCreate
  split
  · next s0 hl => exact h s0 hl
  · simp

/-- After the touching call, the key is found and holds the written state. -/
theorem getOrCreate_lookup_self (opts : StoreConfig) (cfg : RouteRateConfig)
    (key route : String) (now : ℚ) (st : Store) (hg : goodStore st)
    (hidle : 0 < opts.idleTtlMs) :
    lookupEntry (getOrCreate opts cfg key route now st).2.entries key
      = some (getOrCreate opts cfg key route now st).1 := by
  have hpred : ∀ (x : State), x.expiresAt = now + opts.idleTtlMs →
      (fun (e : String × State) => !(decide (e.2.expiresAt ≤ now))) (key, x)
        = true := by
    intro x hx
    simp [hx]
    linarith
  unfold getOrCreate
  split
  · next s0 hl =>
      dsimp only
      unfold sweepIfNeeded
      split
      · rw [lookupEntry_setEntry_self, hl]
        rfl
      · dsimp only
        refine lookupEntry_filter_of_pred _ _ _ _ ?_ ?_ (hpred _ rfl)
        · rw [mapFst_setEntry]
          exact hg
        · rw [lookupEntry_setEntry_self, hl]
          rfl
  · next hl =>
      have hl' : lookupEntry st.entries key = none := hl
      dsimp only
      set fresh : State :=
        { key := key, route := route, tokens := cfg.bucket.capacity,
          lastRefill := now, attempts := [], contentHistory := [],
          lastSeen := now, expiresAt := now + opts.idleTtlMs,
          lastDeniedAt := none } with hfresh
      set entries1 : List (String × State) :=
        (if opts.maxEntries ≤ (st.entries.length : ℚ) then
          evictOldest st.entries else st.entries) with he1
      have hsub : List.Sublist entries1 st.entries := by
        rw [he1]
        split
        · exact evictOldest_sublist _
        · exact List.Sublist.refl _
      have hkey : key ∉ (st.entries.map Prod.fst) :=
        (lookupEntry_eq_none st.entries key).mp hl'
      have hnd2 : ((entries1 ++ [(key, fresh)]).map Prod.fst).Nodup := by
        rw [List.map_append, List.nodup_append]
        refine ⟨List.Nodup.sublist (List.Sublist.map Prod.fst hsub) hg,
          List.nodup_singleton _, fun a ha hb => ?_⟩
        simp at hb
        exact (fun hc => hkey ((List.Sublist.map Prod.fst hsub).subset hc))
          (hb ▸ ha)
      have hmem : ((key, fresh) : String × State) ∈ entries1 ++ [(key, fresh)] :=
        List.mem_append.mpr (Or.inr (List.mem_singleton.mpr rfl))
      unfold sweepIfNeeded
      split
      · exact mem_lookupEntry _ _ _ hnd2 hmem
      · exact lookupEntry_filter_of_pred _ _ _ _ hnd2
          (mem_lookupEntry _ _ _ hnd2 hmem) (hpred _ rfl)

/-- Maintenance prunes the attempts exactly once. -/
theorem maintainState_attempts (cfg : RouteRateConfig) (s : State)
    (now : ℚ) :
    (maintainState cfg s now).attempts
      = s.attempts.dropWhile
          (fun a => decide (a.t ≤ now - cfg.sliding.windowMs)) := by
  unfold maintainState refillTokens
  split <;> rfl

/-- Maintenance prunes and bounds the content history exactly once. -/
theorem maintainState_contentHistory (cfg : RouteRateConfig) (s : State)
    (now : ℚ) :
    (maintainState cfg s now).contentHistory
      = (if (s.contentHistory.dropWhile
            (fun a => decide (a.t ≤ now - cfg.heuristics.duplicateWindowMs))).length
            > 1000 then
          (s.contentHistory.dropWhile
            (fun a => decide (a.t ≤ now - cfg.heuristics.duplicateWindowMs))).drop
            ((s.contentHistory.dropWhile
              (fun a => decide (a.t ≤ now - cfg.heuristics.duplicateWindowMs))).length - 1000)
        else s.contentHistory.dropWhile
            (fun a => decide (a.t ≤ now - cfg.heuristics.duplicateWindowMs))) := by
  unfold maintainState refillTokens
  split <;> rfl

/-- Maintenance never leaves `lastRefill` behind the clock. -/
theorem maintainState_lastRefill_ge (cfg : RouteRateConfig) (s : State)
    (now : ℚ) : now ≤ (maintainState cfg s now).lastRefill := by
  unfold maintainState refillTokens
  split
  · next h => exact h
  · exact le_refl _

/-- Maintenance keeps `lastSeen` and `expiresAt`. -/
theorem maintainState_stamps (cfg : RouteRateConfig) (s : State) (now : ℚ) :
    (maintainState cfg s now).lastSeen = s.lastSeen ∧
    (maintainState cfg s now).expiresAt = s.expiresAt := by
  unfold maintainState refillTokens
  constructor <;> (split <;> rfl)

/-- The state side of the decision only (possibly) writes denial memory. -/
theorem decisionOf_state_eq (cfg : RouteRateConfig) (now : ℚ) (key : String)
    (sig : Option String) (s : State) :
    (decisionOf cfg now key sig s).2
      = (if (decisionOf cfg now key sig s).1.allowed = true then s
         else { s with lastDeniedAt := some now }) := rfl

/-- A refresh that writes back the same stamps is the identity. -/
theorem refreshed_eq (x : State) (now idle : ℚ) (hls : x.lastSeen = now)
    (hex : x.expiresAt = now + idle) :
    ({ x with lastSeen := now, expiresAt := now + idle } : State) = x := by
  cases x
  simp_all

/-- Maintenance is the identity on an already-maintained state. -/
theorem maintainState_noop (cfg : RouteRateConfig) (x : State) (now : ℚ)
    (ha : x.attempts.dropWhile
      (fun a => decide (a.t ≤ now - cfg.sliding.windowMs)) = x.attempts)
    (hc : x.contentHistory.dropWhile
      (fun a => decide (a.t ≤ now - cfg.heuristics.duplicateWindowMs))
      = x.contentHistory)
    (hlen : x.contentHistory.length ≤ 1000)
    (hlr : now ≤ x.lastRefill) :
    maintainState cfg x now = x := by
  have h1 : pruneWindow cfg x now = x := by
    unfold pruneWindow
    rw [ha]
  have h2 : pruneContentHistory cfg x now = x := by
    unfold pruneContentHistory
    rw [hc]
    dsimp only
    rw [if_neg (by omega : ¬ x.contentHistory.length > 1000)]
  unfold maintainState
  rw [h1, h2, refillTokens_frozen cfg x now hlr]

/-- The decision phase preserves every state field except denial memory. -/
theorem decisionOf_state_preserves (cfg : RouteRateConfig) (now : ℚ)
    (key : String) (sig : Option String) (s : State) :
    (decisionOf cfg now key sig s).2.attempts = s.attempts ∧
    (decisionOf cfg now key sig s).2.contentHistory = s.contentHistory ∧
    (decisionOf cfg now key sig s).2.lastRefill = s.lastRefill ∧
    (decisionOf cfg now key sig s).2.lastSeen = s.lastSeen ∧
    (decisionOf cfg now key sig s).2.expiresAt = s.expiresAt := by
  refine ⟨?_, ?_, ?_, ?_, ?_⟩ <;> (rw [decisionOf_state_eq]; split <;> rfl)

/-- C6 counterexample: with the sliding window full, a first `isAllowed`
returns `rate_limited` and records the denial; the identical second call at
the same `nowMs` returns `rapid_retries` — not the identical decision. -/
theorem identical_calls_differ :
    c6first.1.allowed = false ∧
    c6first.1.reason = AbuseReason.rate_limited ∧
    c6second.1.reason = AbuseReason.rapid_retries ∧
    c6first.1 ≠ c6second.1 := by
  with_unfolding_all decide

/-- C6 amended: two consecutive identical `isAllowed` calls (same context,
fixed `nowMs`, nothing recorded between them) return the identical decision
whenever the first call is allowed; when the first call is denied, the
repeat is still denied (at a truthy `nowMs` with a positive rapid-retry
window), but the first denial updates denial memory, so the repeat may
report `rapid_retries` instead of the original reason. -/
theorem isAllowed_second_call (hashFn : String → String)
    (cfg : RouteRateConfig) (opts : StoreConfig) (dateNow : ℚ) (st : Store)
    (ctx : RateLimitContext) (hg : goodStore st) (hidle : 0 < opts.idleTtlMs)
    (hch : ∀ s0, lookupEntry st.entries (ctxKey hashFn ctx) = some s0 →
      s0.contentHistory.length ≤ 1000) :
    ((isAllowed hashFn cfg opts dateNow st ctx).1.allowed = true →
      (isAllowed hashFn cfg opts dateNow
          (isAllowed hashFn cfg opts dateNow st ctx).2 ctx).1
        = (isAllowed hashFn cfg opts dateNow st ctx).1) ∧
    ((isAllowed hashFn cfg opts dateNow st ctx).1.allowed = false →
      nowMsOverride dateNow ctx.nowMs ≠ 0 →
      0 < cfg.heuristics.rapidRetryMs →
      (isAllowed hashFn cfg opts dateNow
          (isAllowed hashFn cfg opts dateNow st ctx).2 ctx).1.allowed
        = false) := by
  set now := nowMsOverride dateNow ctx.nowMs with hnow
  set key := ctxKey hashFn ctx with hkey
  set sig := contentSig hashFn ctx with hsig
  set p1 := getOrCreate opts cfg key ctx.route now st with hp1
  set s3 := maintainState cfg p1.1 now with hs3
  set q := decisionOf cfg now key sig s3 with hq
  have hd1 : (isAllowed hashFn cfg opts dateNow st ctx).1 = q.1 := rfl
  have hlook : lookupEntry
      (isAllowed hashFn cfg opts dateNow st ctx).2.entries key = some q.2 := by
    show lookupEntry (setEntry p1.2.entries key q.2) key = some q.2
    rw [lookupEntry_setEntry_self, hp1,
      getOrCreate_lookup_self opts cfg key ctx.route now st hg hidle]
    rfl
  have hpres := decisionOf_state_preserves cfg now key sig s3
  have hstamps := maintainState_stamps cfg p1.1 now
  have hgoc := getOrCreate_state_now opts cfg key ctx.route now st
  have hq2ls : q.2.lastSeen = now := by
    rw [hq, hpres.2.2.2.1, hs3, hstamps.1, hp1, hgoc.1]
  have hq2ex : q.2.expiresAt = now + opts.idleTtlMs := by
    rw [hq, hpres.2.2.2.2, hs3, hstamps.2, hp1, hgoc.2]
  have hp2 : (getOrCreate opts cfg key ctx.route now
      (isAllowed hashFn cfg opts dateNow st ctx).2).1 = q.2 := by
    rw [getOrCreate_found_state opts cfg key ctx.route now _ q.2 hlook]
    exact refreshed_eq q.2 now opts.idleTtlMs hq2ls hq2ex
  have hbound : p1.1.contentHistory.length ≤ 1000 := by
    rw [hp1]
    exact getOrCreate_contentHistory_bound opts cfg key ctx.route now st hch
  have hdwlen : (p1.1.contentHistory.dropWhile
      (fun a => decide (a.t ≤ now - cfg.heuristics.duplicateWindowMs))).length
      ≤ 1000 :=
    le_trans (List.dropWhile_suffix _).sublist.length_le hbound
  have hs3ch : s3.contentHistory = p1.1.contentHistory.dropWhile
      (fun a => decide (a.t ≤ now - cfg.heuristics.duplicateWindowMs)) := by
    rw [hs3, maintainState_contentHistory]
    rw [if_neg]
    omega
  have hs3chlen : s3.contentHistory.length ≤ 1000 := by
    rw [hs3ch]
    exact hdwlen
  have hnoop : maintainState cfg q.2 now = q.2 := by
    apply maintainState_noop
    · rw [hq, hpres.1, hs3, maintainState_attempts]
      exact dropWhile_idem _ _
    · rw [hq, hpres.2.1, hs3ch]
      exact dropWhile_idem _ _
    · rw [hq, hpres.2.1]
      exact hs3chlen
    · rw [hq, hpres.2.2.1]
      exact maintainState_lastRefill_ge cfg p1.1 now
  have hd2 : (isAllowed hashFn cfg opts dateNow
      (isAllowed hashFn cfg opts dateNow st ctx).2 ctx).1
      = (decisionOf cfg now key sig q.2).1 := by
    show (decisionOf cfg now key sig (maintainState cfg
      (getOrCreate opts cfg key ctx.route now
        (isAllowed hashFn cfg opts dateNow st ctx).2).1 now)).1 = _
    rw [hp2, hnoop]
  constructor
  · intro hallow
    rw [hd1] at hallow
    have hq2 : q.2 = s3 := by
      rw [hq, decisionOf_state_eq, if_pos hallow]
    rw [hd2, hq2, hd1, hq]
  · intro hdeny hnz hrap
    rw [hd1] at hdeny
    have hnal : ¬ ((decisionOf cfg now key sig s3).1.allowed = true) := by
      rw [← hq]
      simp [hdeny]
    have hq2 : q.2 = { s3 with lastDeniedAt := some now } := by
      rw [hq, decisionOf_state_eq, if_neg hnal]
    have hflag : rapidRetryFlag cfg q.2 now = true := by
      rw [hq2]
      unfold rapidRetryFlag
      simp only []
      rw [if_neg hnz]
      simp [hrap]
    rw [hd2]
    exact (decisionOf_rapid_denies cfg now key sig q.2 hflag).1

/-- Witness for `isAllowed_second_call` at a concrete call on the empty
store. -/
theorem isAllowed_second_call_witness :
    (goodStore emptyStore ∧ 0 < defaultStoreConfig.idleTtlMs ∧
     (∀ s0, lookupEntry emptyStore.entries
        (ctxKey idHash (scenarioCtx 500 "w4")) = some s0 →
        s0.contentHistory.length ≤ 1000)) ∧
    (((isAllowed idHash defaultRouteConfig defaultStoreConfig 0 emptyStore
        (scenarioCtx 500 "w4")).1.allowed = true →
      (isAllowed idHash defaultRouteConfig defaultStoreConfig 0
          (isAllowed idHash defaultRouteConfig defaultStoreConfig 0 emptyStore
            (scenarioCtx 500 "w4")).2 (scenarioCtx 500 "w4")).1
        = (isAllowed idHash defaultRouteConfig defaultStoreConfig 0 emptyStore
            (scenarioCtx 500 "w4")).1) ∧
     ((isAllowed idHash defaultRouteConfig defaultStoreConfig 0 emptyStore
        (scenarioCtx 500 "w4")).1.allowed = false →
      nowMsOverride 0 (scenarioCtx 500 "w4").nowMs ≠ 0 →
      0 < defaultRouteConfig.heuristics.rapidRetryMs →
      (isAllowed idHash defaultRouteConfig defaultStoreConfig 0
          (isAllowed idHash defaultRouteConfig defaultStoreConfig 0 emptyStore
            (scenarioCtx 500 "w4")).2 (scenarioCtx 500 "w4")).1.allowed
        = false)) := by
  have hg : goodStore emptyStore := List.nodup_nil
  have hidle : (0 : ℚ) < defaultStoreConfig.idleTtlMs := by
    with_unfolding_all decide
  have hch : ∀ s0, lookupEntry emptyStore.entries
      (ctxKey idHash (scenarioCtx 500 "w4")) = some s0 →
      s0.contentHistory.length ≤ 1000 := by
    intro s0 h
    simp [lookupEntry, emptyStore] at h
  exact ⟨⟨hg, hidle, hch⟩,
    isAllowed_second_call idHash defaultRouteConfig defaultStoreConfig 0
      emptyStore (scenarioCtx 500 "w4") hg hidle hch⟩

end RateLimiting
